import Mathlib

/-!
Verification of the `meal-together` recipe-import pipeline
(`backend/app/utils/url_validator.py`, `backend/app/utils/http_fetcher.py`,
`backend/app/services/circuit_breaker.py`, `backend/app/services/recipe_parser.py`,
`backend/app/schemas/recipe_import.py`) against its natural-language specification.

The Python code is shallowly embedded: pure functions become Lean functions on
`List Char` / `String`; external effects (DNS resolution, the HTTP network, the
LLM providers, the cache row) become explicit oracle parameters; Python's
`int()` truncation on the non-negative decimal values occurring here becomes
`Nat` division on exact fixed-point numbers; machine integers do not
overflow in any of the modelled code paths, so `Nat` / `Int` are used
directly.
-/

namespace MealTogether

/-! ## Character-level helpers (ASCII, mirroring Python `str` methods and
the character classes of the `re` patterns used by the code). -/

/-- Model of `str.lower` for the ASCII range (the code only manipulates
ASCII hostnames, units and duration tokens). -/
def lowerChar (c : Char) : Char :=
  if 65 ≤ c.toNat ∧ c.toNat ≤ 90 then Char.ofNat (c.toNat + 32) else c

/-- `\d` of Python `re`. -/
def isDigitCh (c : Char) : Bool := 48 ≤ c.toNat && c.toNat ≤ 57

/-- `\s` of Python `re` (ASCII part: space, tab, newline, CR, FF, VT). -/
def isSpaceCh (c : Char) : Bool :=
  c.toNat = 32 || c.toNat = 9 || c.toNat = 10 || c.toNat = 13 || c.toNat = 12 || c.toNat = 11

/-- `[a-zA-Z]` of Python `re`. -/
def isAlphaCh (c : Char) : Bool :=
  (65 ≤ c.toNat && c.toNat ≤ 90) || (97 ≤ c.toNat && c.toNat ≤ 122)

/-- Word character for `\b` boundaries (`[a-zA-Z0-9_]`). -/
def isWordCh (c : Char) : Bool := isAlphaCh c || isDigitCh c || c.toNat = 95

/-- Numeric value of a digit character. -/
def digitVal (c : Char) : Nat := c.toNat - 48

/-- Value of a digit string (most significant first), as accumulated by
`int(...)` on a matched digit group. -/
def digitsVal (ds : List Char) : Nat := ds.foldl (fun a c => a * 10 + digitVal c) 0

/-- Case-insensitive character comparison, as compiled by `re.IGNORECASE`. -/
def chEqCI (a b : Char) : Bool := lowerChar a = lowerChar b

/-- Case-insensitive literal match: does `pat` occur at the head of `cs`?
Returns the remainder after the literal. -/
def matchLitCI : List Char → List Char → Option (List Char)
  | [], cs => some cs
  | _ :: _, [] => none
  | p :: ps, c :: cs => if chEqCI p c then matchLitCI ps cs else none

/-- Case-sensitive literal match (for patterns compiled without flags). -/
def matchLit : List Char → List Char → Option (List Char)
  | [], cs => some cs
  | _ :: _, [] => none
  | p :: ps, c :: cs => if p = c then matchLit ps cs else none

/-- Python `str.strip()` (ASCII whitespace). -/
def stripChars (cs : List Char) : List Char :=
  ((cs.dropWhile (isSpaceCh ·)).reverse.dropWhile (isSpaceCh ·)).reverse

/-! ## `circuit_breaker.py` — persisted 3-field state machine.

The database row `recipe_import_circuit_state` is embedded as an explicit
record; `now()` timestamps are natural numbers counted in seconds.  The
atomic SQL `UPDATE ... RETURNING` statements become pure state transformers. -/

/-- `RECIPE_IMPORT_CIRCUIT_FAILURE_THRESHOLD` default. -/
def FAILURE_THRESHOLD : Nat := 5

/-- `RECIPE_IMPORT_CIRCUIT_COOLDOWN_MINUTES` default, converted to seconds
(`timedelta(minutes=15)`). -/
def COOLDOWN_SECS : Nat := 15 * 60

/-- The singleton row of `recipe_import_circuit_state`. -/
structure CircuitState where
  consecutive_failures : Nat
  last_failure_at : Option Nat
  is_open : Bool
  deriving Repr, DecidableEq

/-- Initial (closed) circuit state. -/
def CircuitState.closed : CircuitState := ⟨0, none, false⟩

/-- `record_llm_failure`: `consecutive_failures += 1`,
`last_failure_at = now()`, `is_open = (consecutive_failures + 1 >= threshold)`;
returns the resulting `is_open` (the `RETURNING` clause reads the new row). -/
def record_llm_failure (now : Nat) (s : CircuitState) : CircuitState × Bool :=
  let cf := s.consecutive_failures + 1
  let opened := decide (cf ≥ FAILURE_THRESHOLD)
  (⟨cf, some now, opened⟩, opened)

/-- `record_llm_success`: resets `consecutive_failures` to 0 and closes the
circuit; `last_failure_at` is left unchanged by the SQL. -/
def record_llm_success (s : CircuitState) : CircuitState :=
  ⟨0, s.last_failure_at, false⟩

/-- `can_attempt_llm`: closed circuit allows; an open circuit allows (and
resets to closed) once `now >= last_failure_at + cooldown`, else blocks.
An open circuit with no recorded failure time blocks. -/
def can_attempt_llm (now : Nat) (s : CircuitState) : Bool × CircuitState :=
  if !s.is_open then (true, s)
  else
    match s.last_failure_at with
    | some t =>
        if now ≥ t + COOLDOWN_SECS then (true, ⟨0, s.last_failure_at, false⟩)
        else (false, s)
    | none => (false, s)

/-- State after a sequence of `record_llm_failure` calls at the given times. -/
def recordFailures (times : List Nat) (s : CircuitState) : CircuitState :=
  times.foldl (fun st t => (record_llm_failure t st).1) s

/-! ## `url_validator.py` — SSRF validator.

`ipaddress.ip_address` results are embedded as an `IPAddr` value; a resolved
address string that fails to parse is `Option.none` (the `ValueError` branch
of `is_private_ip`). DNS (`socket.getaddrinfo`) is an oracle
`String → Option (List (Option IPAddr))`, `Option.none` meaning resolution
failed (`gaierror` / any other exception). URL parsing (`validators.url`
plus `urllib.parse.urlparse`) is embedded as a record of the parts the
validator consumes. -/

/-- A parsed IP address: an IPv4 address given by its four octets, or an
IPv6 address given by its 128-bit value. -/
inductive IPAddr where
  | v4 (a b c d : Nat)
  | v6 (n : Nat)
  deriving Repr, DecidableEq

/-- `is_private_ip` on a successfully parsed address: the five `PRIVATE_RANGES_V4`
networks resp. the three `PRIVATE_RANGES_V6` networks. -/
def isPrivateAddr : IPAddr → Bool
  | .v4 a b _ _ =>
      a = 127 ∨ a = 10 ∨ (a = 172 ∧ 16 ≤ b ∧ b ≤ 31) ∨ (a = 192 ∧ b = 168) ∨
        (a = 169 ∧ b = 254)
  | .v6 n =>
      n = 1 ∨ n / 2 ^ 121 = 126 ∨ n / 2 ^ 118 = 1018

/-- `is_private_ip`: a malformed address string (`ValueError`) is treated as
private (fail closed). -/
def is_private_ip : Option IPAddr → Bool
  | none => true
  | some ip => isPrivateAddr ip

/-- `BLOCKED_DOMAINS`. -/
def BLOCKED_DOMAINS : List String :=
  ["localhost", "metadata.google.internal", "169.254.169.254", "metadata",
   "metadata.azure.com"]

/-- The parts of a URL consumed by `validate_url_safe`: the result of
`validators.url(url)` and the `scheme`/`hostname` of `urlparse(url)`. -/
structure UrlParts where
  syntaxValid : Bool
  scheme : String
  hostname : Option String
  deriving Repr, DecidableEq

/-- Model of `str.lower` on a string. -/
def lowerStr (s : String) : String := ⟨s.data.map lowerChar⟩

/-- A DNS oracle: all addresses `getaddrinfo` resolves a hostname to
(`none` = resolution failure). -/
def DnsOracle : Type := String → Option (List (Option IPAddr))

/-- `validate_url_safe`: syntax check, scheme whitelist, hostname presence,
hostname denylist, then every resolved address must be non-private. -/
def validate_url_safe (dns : DnsOracle) (u : UrlParts) : Bool × String :=
  if !u.syntaxValid then (false, "Invalid URL format")
  else if u.scheme ≠ "http" ∧ u.scheme ≠ "https" then
    (false, "Scheme not allowed (only HTTP/HTTPS)")
  else
    match u.hostname with
    | none => (false, "No hostname in URL")
    | some h =>
        if BLOCKED_DOMAINS.contains (lowerStr h) then (false, "Domain is blocked")
        else
          match dns h with
          | none => (false, "Could not resolve hostname")
          | some addrs =>
              match addrs.find? (fun a => is_private_ip a) with
              | some _ => (false, "Resolves to private IP")
              | none => (true, "OK")

/-! ## `http_fetcher.py` — bounded fetcher with manual redirect handling.

The network is an oracle `UrlParts → NetResult` (what `requests.get` returns
for a URL, redirects disabled); `urljoin` is an oracle resolving a `Location`
header against the current URL.  The fetch loop is embedded with an explicit
fuel argument `MAX_REDIRECTS + 1 - redirect_count`, which makes the
`while redirect_count <= MAX_REDIRECTS` condition structural.  The list of
URLs for which a request was issued is returned alongside the result. -/

/-- `RECIPE_IMPORT_MAX_SIZE_BYTES` default (5 MiB). -/
def MAX_SIZE : Nat := 5242880

/-- `RECIPE_IMPORT_MAX_REDIRECTS` default. -/
def MAX_REDIRECTS : Nat := 3

/-- Outcome of one `requests.get(url, allow_redirects=False, stream=True)`:
either a raised request exception, or a response with status code, optional
`Location` header, `content-type` header, the byte sizes of the streamed
chunks, and the decoded body. -/
inductive NetResult where
  | exn (msg : String)
  | resp (status : Nat) (location : Option String) (contentType : String)
      (chunks : List Nat) (body : String)

/-- The environment of one `fetch_html` execution. -/
structure FetchEnv where
  net : UrlParts → NetResult
  dns : DnsOracle
  urljoin : UrlParts → String → UrlParts

/-- Substring containment (Python `in` on strings), case already lowered. -/
def containsSub (needle hay : List Char) : Bool :=
  match hay with
  | [] => needle.isEmpty
  | _ :: t => (matchLit needle hay).isSome || containsSub needle t

/-- Cumulative size check of the chunked read: `content += chunk` and abort
the moment `len(content) > MAX_SIZE`. -/
def sizeOk : Nat → List Nat → Bool
  | _, [] => true
  | acc, c :: rest => if acc + c > MAX_SIZE then false else sizeOk (acc + c) rest

/-- Redirect status codes handled manually. -/
def isRedirectStatus (st : Nat) : Bool :=
  st = 301 || st = 302 || st = 303 || st = 307 || st = 308

/-- The `while redirect_count <= MAX_REDIRECTS` loop of `fetch_html`.
`fuel` is `MAX_REDIRECTS + 1 - count`; the trace accumulates every URL a
request is issued for. -/
def fetchLoop (env : FetchEnv) :
    Nat → Nat → UrlParts → List UrlParts → Except String String × List UrlParts
  | 0, _, _, trace =>
      (.error "Failed to fetch content after redirects", trace)
  | fuel + 1, count, url, trace =>
      let trace' := trace ++ [url]
      match env.net url with
      | .exn e => (.error e, trace')
      | .resp st loc ctype chunks body =>
          if isRedirectStatus st then
            if count + 1 > MAX_REDIRECTS then
              (.error "Too many redirects (max 3)", trace')
            else
              match loc with
              | none => (.error "redirect without Location header", trace')
              | some l =>
                  let next := env.urljoin url l
                  if (validate_url_safe env.dns next).1 then
                    fetchLoop env fuel (count + 1) next trace'
                  else (.error "Redirect to unsafe URL", trace')
          else if !(200 ≤ st && st < 300) then (.error "HTTP status error", trace')
          else if !(containsSub "html".data (ctype.data.map lowerChar)
              || containsSub "text".data (ctype.data.map lowerChar)) then
            (.error "Not HTML content", trace')
          else if !(sizeOk 0 chunks) then (.error "Response too large", trace')
          else (.ok body, trace')

/-- `fetch_html`: validate the initial URL, then run the manual-redirect loop. -/
def fetch_html (env : FetchEnv) (url : UrlParts) :
    Except String String × List UrlParts :=
  if (validate_url_safe env.dns url).1 then
    fetchLoop env (MAX_REDIRECTS + 1) 0 url []
  else (.error "Unsafe URL", [])

/-! ## `recipe_parser.py` — ISO-8601 duration parsing.

`re.search(r'P.*?(\d+)D', s)` (and the `T`-anchored hour/minute variants) is
embedded by a faithful scanner: the leftmost occurrence of the anchor letter
after which some maximal digit run is immediately followed by the unit letter;
the lazy `.*?` makes the captured run the first such run after the anchor. -/

mutual
/-- Scan for `(\d+)unit` (lazy-prefix semantics of `.*?(\d+)U`): the first
maximal digit run immediately followed by `unit`. -/
def scanUnit (unit : Char) : List Char → Option Nat
  | [] => none
  | c :: rest =>
      if isDigitCh c then scanUnitRun unit (digitVal c) rest
      else scanUnit unit rest
/-- Inside a digit run with accumulated value `acc`. -/
def scanUnitRun (unit : Char) (acc : Nat) : List Char → Option Nat
  | [] => none
  | c :: rest =>
      if isDigitCh c then scanUnitRun unit (acc * 10 + digitVal c) rest
      else if c = unit then some acc
      else scanUnit unit rest
end

/-- `re.search(r'A.*?(\d+)U', s)`: leftmost anchor `A` after which a digit
run followed by `U` occurs. -/
def scanAnchored (anchor unit : Char) : List Char → Option Nat
  | [] => none
  | c :: rest =>
      if c = anchor then
        match scanUnit unit rest with
        | some n => some n
        | none => scanAnchored anchor unit rest
      else scanAnchored anchor unit rest

/-- `parse_iso8601_duration`: days (after `P`) count 1440 minutes, hours and
minutes are matched after `T`; a zero total yields `None`, not `0`. -/
def parse_iso8601_duration (s : String) : Option Nat :=
  if s = "" then none
  else
    let cs := s.data
    let d := (scanAnchored 'P' 'D' cs).getD 0
    let h := (scanAnchored 'T' 'H' cs).getD 0
    let m := (scanAnchored 'T' 'M' cs).getD 0
    let total := d * 24 * 60 + h * 60 + m
    if total > 0 then some total else none

/-! ## `recipe_parser.py` — natural-language durations
(`parse_duration_to_seconds`).

The three range patterns `(\d+(?:\.\d+)?)\s*(?:to|-)\s*(\d+(?:\.\d+)?)\s*(U)`
and the three single-value patterns `(\d+(?:\.\d+)?)\s*(?:U)` are embedded by
deterministic greedy matchers (the character classes of consecutive pattern
pieces are disjoint, so the regex backtracking never changes the outcome),
tried at every position left to right as `re.search` does.  Numbers are exact
rationals (CPython floats agree on all inputs exercised here); `int()` on the
non-negative results is `Int.floor`. -/

/-- An exact non-negative decimal `num / 10 ^ scale`, the value of a matched
`\d+(?:\.\d+)?` group (CPython parses it with `float(...)`; the decimals
reaching the comparisons here are short enough that the exact value and the
double agree on every comparison the code performs). -/
structure DecNum where
  num : Nat
  scale : Nat
  deriving Repr, DecidableEq

/-- The rational value of a matched decimal (for specification statements). -/
def DecNum.val (d : DecNum) : ℚ := (d.num : ℚ) / (10 : ℚ) ^ d.scale

/-- `int(v * mult)` for a single matched value (truncation on a non-negative
product is floor, hence `Nat` division). -/
def decTimes (d : DecNum) (mult : Nat) : Nat := d.num * mult / 10 ^ d.scale

/-- `int((low + high) / 2 * mult)` for a matched range. -/
def decMidTimes (a b : DecNum) (mult : Nat) : Nat :=
  let s := max a.scale b.scale
  let n1 := a.num * 10 ^ (s - a.scale)
  let n2 := b.num * 10 ^ (s - b.scale)
  (n1 + n2) * mult / (2 * 10 ^ s)

/-- Greedy `\d+(?:\.\d+)?`: maximal digit run, then optionally a dot followed
by a maximal nonempty digit run. -/
def matchNum (cs : List Char) : Option (DecNum × List Char) :=
  let ds := cs.takeWhile (isDigitCh ·)
  if ds.isEmpty then none
  else
    let rest := cs.drop ds.length
    match rest with
    | '.' :: rest2 =>
        let fs := rest2.takeWhile (isDigitCh ·)
        if fs.isEmpty then some (⟨digitsVal ds, 0⟩, rest)
        else
          some (⟨digitsVal ds * 10 ^ fs.length + digitsVal fs, fs.length⟩,
            rest2.drop fs.length)
    | _ => some (⟨digitsVal ds, 0⟩, rest)

/-- Greedy `\s*`. -/
def skipSpaces (cs : List Char) : List Char := cs.dropWhile (isSpaceCh ·)

/-- `(?:to|-)` (ordered alternation). -/
def matchToDash (cs : List Char) : Option (List Char) :=
  match matchLit "to".data cs with
  | some r => some r
  | none => matchLit "-".data cs

/-- Does one of the ordered unit alternatives match at the head of `cs`? -/
def unitHere (alts : List (List Char)) (cs : List Char) : Bool :=
  alts.any (fun a => (matchLit a cs).isSome)

/-- One attempt of a range pattern at the current position. -/
def tryRange (alts : List (List Char)) (cs : List Char) : Option (DecNum × DecNum) :=
  match matchNum cs with
  | none => none
  | some (a, r1) =>
      match matchToDash (skipSpaces r1) with
      | none => none
      | some r2 =>
          match matchNum (skipSpaces r2) with
          | none => none
          | some (b, r3) =>
              if unitHere alts (skipSpaces r3) then some (a, b) else none

/-- `re.search` of a range pattern: leftmost matching position. -/
def searchRange (alts : List (List Char)) : List Char → Option (DecNum × DecNum)
  | [] => none
  | c :: rest =>
      match tryRange alts (c :: rest) with
      | some x => some x
      | none => searchRange alts rest

/-- One attempt of a single-value pattern at the current position. -/
def trySingle (alts : List (List Char)) (cs : List Char) : Option DecNum :=
  match matchNum cs with
  | none => none
  | some (a, r1) => if unitHere alts (skipSpaces r1) then some a else none

/-- `re.search` of a single-value pattern. -/
def searchSingle (alts : List (List Char)) : List Char → Option DecNum
  | [] => none
  | c :: rest =>
      match trySingle alts (c :: rest) with
      | some x => some x
      | none => searchSingle alts rest

/-- `hour|hr|hours|hrs` in source order. -/
def hourAlts : List (List Char) := ["hour".data, "hr".data, "hours".data, "hrs".data]

/-- `minute|min|minutes|mins` in source order. -/
def minuteAlts : List (List Char) :=
  ["minute".data, "min".data, "minutes".data, "mins".data]

/-- `second|sec|seconds|secs` in source order. -/
def secondAlts : List (List Char) :=
  ["second".data, "sec".data, "seconds".data, "secs".data]

/-- `parse_duration_to_seconds`: lowercase, try the three range patterns
(midpoint of the bounds times the unit multiplier), then the three
single-value patterns; `int()` truncation on the non-negative product. -/
def parse_duration_to_seconds (s : String) : Option Nat :=
  if s = "" then none
  else
    let cs := s.data.map lowerChar
    match searchRange hourAlts cs with
    | some (a, b) => some (decMidTimes a b 3600)
    | none =>
    match searchRange minuteAlts cs with
    | some (a, b) => some (decMidTimes a b 60)
    | none =>
    match searchRange secondAlts cs with
    | some (a, b) => some (decMidTimes a b 1)
    | none =>
    match searchSingle hourAlts cs with
    | some v => some (decTimes v 3600)
    | none =>
    match searchSingle minuteAlts cs with
    | some v => some (decTimes v 60)
    | none =>
    match searchSingle secondAlts cs with
    | some v => some (decTimes v 1)
    | none => none

/-! ## `recipe_parser.py` — ingredient splitting
(`parse_ingredient_string`, `convert_decimal_to_fraction`).

The three anchored patterns are embedded as deterministic matchers.  The
character class `[\d\s/.-]` contains no letters while every unit alternative
starts with a letter, so the greedy class run never backtracks into a unit
match; the star `(?:\s+(?:U)[s]?)*` and the ordered unit alternation are
matched with genuine backtracking (greedy first, next alternative on
failure), driven by a fuel argument bounded by the input length.  The final
`\s+(.+)$` piece is modelled as "a whitespace character, then the text after
the maximal whitespace run, which must be nonempty" — equivalent to the
regex on every `.strip()`-ed input, which is the only way the code calls
these matchers. -/

/-- `[\d\s/.-]` (47, 46, 45 are `/`, `.`, `-`). -/
def isClassCh (c : Char) : Bool :=
  isDigitCh c || isSpaceCh c || c.toNat = 47 || c.toNat = 46 || c.toNat = 45

/-- First success of `f` over a list, in order (regex alternation order). -/
def firstSome : List α → (α → Option β) → Option β
  | [], _ => none
  | a :: t, f =>
      match f a with
      | some b => some b
      | none => firstSome t f

/-- The `units` list of `parse_ingredient_string`, in source order; `true`
marks the alternatives written with a trailing `\b`. -/
def UNITS : List (List Char × Bool) :=
  [("cup".data, false), ("cups".data, false), ("c".data, true),
   ("tablespoon".data, false), ("tablespoons".data, false), ("tbsp".data, false),
   ("tbs".data, false), ("T".data, true),
   ("teaspoon".data, false), ("teaspoons".data, false), ("tsp".data, false),
   ("t".data, true),
   ("fluid ounce".data, false), ("fluid ounces".data, false), ("fl oz".data, false),
   ("pint".data, false), ("pints".data, false), ("pt".data, false),
   ("quart".data, false), ("quarts".data, false), ("qt".data, false),
   ("gallon".data, false), ("gallons".data, false), ("gal".data, false),
   ("milliliter".data, false), ("milliliters".data, false), ("ml".data, false),
   ("liter".data, false), ("liters".data, false), ("l".data, true),
   ("pound".data, false), ("pounds".data, false), ("lb".data, false),
   ("lbs".data, false),
   ("ounce".data, false), ("ounces".data, false), ("oz".data, false),
   ("gram".data, false), ("grams".data, false), ("g".data, true),
   ("kilogram".data, false), ("kilograms".data, false), ("kg".data, false),
   ("can".data, false), ("cans".data, false),
   ("package".data, false), ("packages".data, false), ("pkg".data, false),
   ("jar".data, false), ("jars".data, false),
   ("box".data, false), ("boxes".data, false),
   ("bag".data, false), ("bags".data, false),
   ("bunch".data, false), ("bunches".data, false),
   ("clove".data, false), ("cloves".data, false),
   ("slice".data, false), ("slices".data, false),
   ("pinch".data, false), ("pinches".data, false),
   ("dash".data, false), ("dashes".data, false),
   ("whole".data, false),
   ("large".data, false), ("medium".data, false), ("small".data, false)]

/-- All remainders after matching `(?:U)[s]?` at the head of `cs`, in regex
preference order: alternatives in list order, and for each, the greedy
`[s]?` (with the `s`) before the empty option.  `\b` alternatives require a
non-word character (or the end) after the literal. -/
def unitCandidates (cs : List Char) : List (List Char) :=
  (UNITS.filterMap (fun u =>
    match matchLitCI u.1 cs with
    | some r =>
        if u.2 then
          match r with
          | [] => some r
          | c :: _ => if isWordCh c then none else some r
        else some r
    | none => none)).flatMap (fun r =>
      match r with
      | c :: t => if chEqCI 's' c then [t, c :: t] else [c :: t]
      | [] => [[]])

/-- Backtracking matcher for `(?:\s+(?:U)[s]?)*\s+(.+)$`: returns the number
of characters the star consumed (they belong to capture group 1) and the
final capture group 2.  Greedy: a further star iteration is preferred over
terminating.  `fuel ≥ cs.length` suffices, as every iteration consumes at
least two characters. -/
def starTail : Nat → List Char → Option (Nat × List Char)
  | 0, _ => none
  | fuel + 1, cs =>
      let iter :=
        match cs with
        | c :: _ =>
            if isSpaceCh c then
              let ws := cs.takeWhile (isSpaceCh ·)
              let rest := cs.drop ws.length
              firstSome (unitCandidates rest) (fun r =>
                match starTail fuel r with
                | some (n, g2) =>
                    some (ws.length + (rest.length - r.length) + n, g2)
                | none => none)
            else none
        | [] => none
      match iter with
      | some x => some x
      | none =>
          match cs with
          | c :: _ =>
              if isSpaceCh c then
                let g2 := cs.dropWhile (isSpaceCh ·)
                if g2.isEmpty then none else some (0, g2)
              else none
          | [] => none

/-- The parenthetical pattern `^(\d+\s*\([^)]+\))\s+(.+)$`. -/
def tryParen (cs : List Char) : Option (List Char × List Char) :=
  let ds := cs.takeWhile (isDigitCh ·)
  if ds.isEmpty then none
  else
    let r1 := cs.drop ds.length
    let ws := r1.takeWhile (isSpaceCh ·)
    match r1.drop ws.length with
    | '(' :: r3 =>
        let inside := r3.takeWhile (· ≠ ')')
        if inside.isEmpty then none
        else
          match r3.drop inside.length with
          | ')' :: r4 =>
              (match r4 with
              | c :: _ =>
                  if isSpaceCh c then
                    let g2 := r4.dropWhile (isSpaceCh ·)
                    if g2.isEmpty then none
                    else
                      some (cs.take (ds.length + ws.length + 1 + inside.length + 1), g2)
                  else none
              | [] => none)
          | _ => none
    | _ => none

/-- The main unit pattern
`^([\d\s/.-]+(?:U)[s]?(?:\s+(?:U)[s]?)*)\s+(.+)$` (IGNORECASE). -/
def tryUnitPattern (cs : List Char) : Option (List Char × List Char) :=
  let k := cs.takeWhile (isClassCh ·)
  if k.isEmpty then none
  else
    let rest := cs.drop k.length
    firstSome (unitCandidates rest) (fun r =>
      match starTail r.length r with
      | some (n, g2) =>
          some (cs.take (k.length + (rest.length - r.length) + n), g2)
      | none => none)

/-- The numeric fallback `^([\d\s/.-]+)\s+([a-zA-Z].+)$`: the greedy class
run gives exactly one whitespace character back to `\s+`. -/
def tryNumFallback (cs : List Char) : Option (List Char × List Char) :=
  let k := cs.takeWhile (isClassCh ·)
  if k.length < 2 then none
  else
    match k.getLast? with
    | some lastc =>
        if isSpaceCh lastc then
          match cs.drop k.length with
          | c :: c2 :: rest2 =>
              if isAlphaCh c then some (k.take (k.length - 1), c :: c2 :: rest2)
              else none
          | _ => none
        else none
    | none => none

/-- Leftmost `re.search(r'(\d*\.\d+)', s)`: the matched substring together
with its exact value. -/
def searchDecimal : List Char → Option (List Char × DecNum)
  | [] => none
  | c :: rest =>
      let cs := c :: rest
      let ds := cs.takeWhile (isDigitCh ·)
      match cs.drop ds.length with
      | '.' :: r2 =>
          let fs := r2.takeWhile (isDigitCh ·)
          if fs.isEmpty then searchDecimal rest
          else
            some (ds ++ '.' :: fs,
              ⟨digitsVal ds * 10 ^ fs.length + digitsVal fs, fs.length⟩)
      | _ => searchDecimal rest

/-- The `decimal_map` of `convert_decimal_to_fraction`, in source order:
band bounds in hundredths, and the replacement fraction text. -/
def DECIMAL_BANDS : List (Nat × Nat × List Char) :=
  [(32, 34, "1/3".data), (66, 68, "2/3".data), (24, 26, "1/4".data),
   (74, 76, "3/4".data), (49, 51, "1/2".data), (12, 13, "1/8".data),
   (37, 38, "3/8".data), (62, 63, "5/8".data), (87, 88, "7/8".data)]

/-- `low <= decimal_val <= high` with exact arithmetic. -/
def inBand (lo hi : Nat) (d : DecNum) : Bool :=
  lo * 10 ^ d.scale ≤ d.num * 100 && d.num * 100 ≤ hi * 10 ^ d.scale

/-- Python `str.replace(old, new)` (all non-overlapping occurrences, left to
right); `fuel ≥ s.length` suffices for nonempty `old`. -/
def replaceAllF (old new : List Char) : Nat → List Char → List Char
  | 0, s => s
  | _ + 1, [] => []
  | fuel + 1, c :: rest =>
      match matchLit old (c :: rest) with
      | some r => new ++ replaceAllF old new fuel r
      | none => c :: replaceAllF old new fuel rest

/-- `convert_decimal_to_fraction`. -/
def convert_decimal_to_fraction (q : List Char) : List Char :=
  if q.isEmpty then q
  else
    match searchDecimal q with
    | none => q
    | some (m, d) =>
        match DECIMAL_BANDS.find? (fun b => inBand b.1 b.2.1 d) with
        | some b => replaceAllF m b.2.2 q.length q
        | none => q

/-- `parse_ingredient_string`. -/
def parse_ingredient_string (s : String) : String × String :=
  if s.data.isEmpty then ("", "")
  else
    let cs := stripChars s.data
    match tryParen cs with
    | some (q, n) => (⟨stripChars q⟩, ⟨stripChars n⟩)
    | none =>
    match tryUnitPattern cs with
    | some (q, n) =>
        (⟨convert_decimal_to_fraction (stripChars q)⟩, ⟨stripChars n⟩)
    | none =>
    match tryNumFallback cs with
    | some (q, n) =>
        (⟨convert_decimal_to_fraction (stripChars q)⟩, ⟨stripChars n⟩)
    | none => ("", ⟨cs⟩)

/-! ## `recipe_parser.py` — servings, image and flexible durations.

`recipeYield` values arriving from JSON-LD are heterogeneous Python data;
they are embedded as a tagged variant (mutually inductive with its list and
optional forms so that the recursion of `parse_servings` stays structural).
Python truthiness (`if not recipe_yield`, `if result:`, `x or y`) is
modelled exactly: `None`, `0`, `""`, `[]` and `{}` are falsy. -/

mutual
/-- A Python value appearing in `recipeYield`. `intv` covers `int` inputs
(`float` servings do not occur in the modelled payloads); `otherv` is any
object of another type (truthy, unparseable). -/
inductive YieldVal where
  | intv (n : ℤ)
  | strv (s : String)
  | arrv (xs : YieldList)
  | objv (value atValue : YieldOpt) (otherKeys : Bool)
  | nullv
  | otherv
/-- A Python list of yield values. -/
inductive YieldList where
  | nil
  | cons (hd : YieldVal) (tl : YieldList)
/-- Presence of a dict key (`dict.get` result). -/
inductive YieldOpt where
  | nonev
  | somev (v : YieldVal)
end

/-- Python truthiness of a yield value. -/
def YieldVal.truthy : YieldVal → Bool
  | .intv n => n ≠ 0
  | .strv s => s ≠ ""
  | .arrv xs => match xs with | .nil => false | .cons _ _ => true
  | .objv v av others =>
      (match v with | .somev _ => true | .nonev => false) ||
        (match av with | .somev _ => true | .nonev => false) || others
  | .nullv => false
  | .otherv => true

/-- First maximal digit run of a string (`re.findall(r'\d+', s)[0]`). -/
def firstDigitRun : List Char → Option (List Char)
  | [] => none
  | c :: rest =>
      if isDigitCh c then some ((c :: rest).takeWhile (isDigitCh ·))
      else firstDigitRun rest

mutual
/-- `parse_servings`: falsy inputs (`None`, `0`, `""`, `[]`, `{}`) give
`None`; numbers pass through; lists yield the first element whose
recursive result is truthy; dicts recurse on `value`/`@value` (Python
`or` chain); strings yield their first digit run; anything else falls
through to `None`. -/
def parse_servings : YieldVal → Option ℤ
  | .intv n => if n = 0 then none else some n
  | .strv s =>
      if s = "" then none
      else
        match firstDigitRun s.data with
        | some ds => some (digitsVal ds : ℤ)
        | none => none
  | .arrv .nil => none
  | .arrv (.cons h t) => parseServingsList (.cons h t)
  | .objv (.somev x) av _ =>
      if x.truthy then parse_servings x
      else
        (match av with
        | .somev y => if y.truthy then parse_servings y else none
        | .nonev => none)
  | .objv .nonev (.somev y) _ =>
      if y.truthy then parse_servings y else none
  | .objv .nonev .nonev _ => none
  | .nullv => none
  | .otherv => none
/-- The `for item in recipe_yield: if result: return result` loop. -/
def parseServingsList : YieldList → Option ℤ
  | .nil => none
  | .cons h t =>
      match parse_servings h with
      | some n => if n ≠ 0 then some n else parseServingsList t
      | none => parseServingsList t
end

/-- An element of a JSON-LD `image` list (`image[0]` is inspected). -/
inductive ImageItem where
  | strv (s : String)
  | objv (url atId : Option String)
  | otherv

/-- A JSON-LD `image` value. -/
inductive ImageVal where
  | absent
  | strv (s : String)
  | objv (url atId : Option String)
  | arrv (xs : List ImageItem)
  | otherv

/-- `image.get('url', '') or image.get('@id', '')`. -/
def imageFromObj (url atId : Option String) : String :=
  if url.getD "" ≠ "" then url.getD "" else atId.getD ""

/-- `extract_image_url`: string, object (`url`/`@id`), or first list element. -/
def extract_image_url (img : ImageVal) : String :=
  match img with
  | .absent => ""
  | .strv s => s
  | .objv url atId => imageFromObj url atId
  | .arrv [] => ""
  | .arrv (first :: _) =>
      match first with
      | .strv s => s
      | .objv url atId => imageFromObj url atId
      | .otherv => ""
  | .otherv => ""

/-- A `prepTime`/`cookTime`/`totalTime` value: string, number, or absent. -/
inductive DurVal where
  | strv (s : String)
  | intv (n : ℤ)
  | nonev

/-- `parse_duration_flexible`: falsy input (`None`, `0`, `""`) gives `None`;
numbers are already minutes; strings try ISO-8601, then natural text with
`// 60`. -/
def parse_duration_flexible : DurVal → Option ℤ
  | .nonev => none
  | .intv n => if n = 0 then none else some n
  | .strv s =>
      if s = "" then none
      else
        match parse_iso8601_duration s with
        | some m => some (m : ℤ)
        | none =>
            match parse_duration_to_seconds s with
            | some secs => some ((secs / 60 : ℕ) : ℤ)
            | none => none

/-! ## `schemas/recipe_import.py` — pydantic validation of `ImportedRecipe`.

Pydantic v1 semantics: field constraints (string lengths, numeric ranges,
`min_items`/`max_items`) run during field validation; class `@validator`s
without `pre=True` are post-validators and run only afterwards.  The
truncating validators therefore only ever see lists that already satisfied
`max_items`.  Validation failure raises `ValidationError`, embedded as
`Except.error`. -/

/-- `truncate_text` of `recipe_parser.py` (`text[:max_length]`). -/
def truncate_text (s : String) (maxLen : Nat) : String := ⟨s.data.take maxLen⟩

/-- Payload for `ImportedIngredient`. -/
structure RawIngredient where
  name : String
  quantity : String
  deriving Repr, DecidableEq

/-- Payload for `ImportedStep`. -/
structure RawStep where
  order : ℤ
  instruction : String
  estimated_time : Option ℤ
  deriving Repr, DecidableEq

/-- Payload for `ImportedTimer`. -/
structure RawTimer where
  name : String
  duration : ℤ
  step_order : Option ℤ
  deriving Repr, DecidableEq

/-- The keyword payload of `ImportedRecipe(**raw_data)`. -/
structure RawRecipe where
  name : String
  description : String
  prep_time : ℤ
  cook_time : ℤ
  servings : ℤ
  image_url : String
  source_url : String
  ingredients : List RawIngredient
  steps : List RawStep
  timers : List RawTimer
  deriving Repr, DecidableEq

/-- `Field(min_length, max_length)` on a string. -/
def chkStrLen (v : String) (lo hi : Nat) : Bool := lo ≤ v.length && v.length ≤ hi

/-- `Field(ge, le)` on an int. -/
def chkIntRange (v : ℤ) (lo hi : ℤ) : Bool := lo ≤ v && v ≤ hi

/-- Optional int field with `ge`/`le`. -/
def chkOptIntRange (v : Option ℤ) (lo hi : ℤ) : Bool :=
  match v with
  | none => true
  | some n => chkIntRange n lo hi

/-- Field validation of one `ImportedIngredient`. -/
def chkIngredient (i : RawIngredient) : Bool :=
  chkStrLen i.name 1 200 && chkStrLen i.quantity 0 100

/-- Field validation of one `ImportedStep`. -/
def chkStep (s : RawStep) : Bool :=
  chkIntRange s.order 1 50 && chkStrLen s.instruction 1 500 &&
    chkOptIntRange s.estimated_time 0 28800

/-- Field validation of one `ImportedTimer`. -/
def chkTimer (t : RawTimer) : Bool :=
  chkStrLen t.name 1 200 && chkIntRange t.duration 1 28800 &&
    chkOptIntRange t.step_order 1 50

/-- All field constraints of `ImportedRecipe`, including the
`min_items`/`max_items` list-length constraints. -/
def recipeFieldsOk (r : RawRecipe) : Bool :=
  chkStrLen r.name 1 200 && chkStrLen r.description 0 1000 &&
    chkIntRange r.prep_time 0 1440 && chkIntRange r.cook_time 0 1440 &&
    chkIntRange r.servings 1 100 && chkStrLen r.image_url 0 500 &&
    r.ingredients.all (chkIngredient ·) &&
    (1 ≤ r.ingredients.length && r.ingredients.length ≤ 50) &&
    r.steps.all (chkStep ·) &&
    (1 ≤ r.steps.length && r.steps.length ≤ 30) &&
    r.timers.all (chkTimer ·) && r.timers.length ≤ 20

/-- `ImportedRecipe(**raw)`: pydantic v1 field validation (the constraints
of `recipeFieldsOk`, raising `ValidationError` if any fails), then the
truncating post-validators (`v[:50]`, `v[:30]`, `v[:20]`), which are no-ops
on any list that passed `max_items`. -/
def validateImportedRecipe (r : RawRecipe) : Except String RawRecipe :=
  if recipeFieldsOk r then
    .ok { r with
      ingredients := r.ingredients.take 50
      steps := r.steps.take 30
      timers := r.timers.take 20 }
  else .error "ValidationError"

/-! ## `recipe_parser.py` — LLM output mapping, fallback and pipeline.

The LLM providers, the JSON-LD extractor (`extruct`), the DOM heuristics
(`BeautifulSoup`), the network fetch and the cache row are external effects
and enter the pipeline as oracles in an `ImportEnv`.  Everything downstream
of those oracles — structured-data assembly, LLM-output mapping, the regex
fallback, timer derivation, final validation and the reported extraction
method — is translated from the source. -/

/-- `RECIPE_IMPORT_MAX_INGREDIENTS` default. -/
def MAX_INGREDIENTS : Nat := 50

/-- `RECIPE_IMPORT_MAX_STEPS` default. -/
def MAX_STEPS : Nat := 30

/-- `RECIPE_IMPORT_MAX_STEP_CHARS` default. -/
def MAX_STEP_CHARS : Nat := 500

/-- `RECIPE_IMPORT_MAX_INGREDIENT_CHARS` default. -/
def MAX_INGREDIENT_CHARS : Nat := 100

/-- A timer in a (truthy) LLM response dict. -/
structure LLMTimerD where
  description : String
  duration_minutes : ℤ
  deriving Repr, DecidableEq

/-- An ingredient in an LLM response dict. -/
structure LLMIngredientD where
  name : String
  quantity : String
  deriving Repr, DecidableEq

/-- A truthy LLM response dict with the keys `map_llm_to_imported_recipe`
reads (`description`, `image_url` and `timers` via `.get` with defaults,
already applied here; the required keys present, as a `KeyError` would
abort the import). -/
structure LLMData where
  name : String
  description : String
  prep_time_minutes : ℤ
  cook_time_minutes : ℤ
  servings : ℤ
  image_url : String
  ingredients : List LLMIngredientD
  timers : List LLMTimerD
  deriving Repr, DecidableEq

/-- `map_llm_to_imported_recipe`: renames the time fields, converts timer
minutes to seconds with a `None` `step_order`, and always emits the single
placeholder step. -/
def map_llm_to_imported_recipe (d : LLMData) (source_url : String) : RawRecipe :=
  { name := d.name
    description := d.description
    prep_time := d.prep_time_minutes
    cook_time := d.cook_time_minutes
    servings := d.servings
    image_url := d.image_url
    source_url := source_url
    ingredients := d.ingredients.map (fun i => ⟨i.name, i.quantity⟩)
    steps := [⟨1, "Follow recipe instructions from source", none⟩]
    timers := d.timers.map (fun t => ⟨t.description, t.duration_minutes * 60, none⟩) }

/-- Python `str.strip` on a `String`. -/
def stripStr (s : String) : String := ⟨stripChars s.data⟩

/-- Timer name derived from a step instruction: the part before the first
`'.'` if present, else the first 50 characters; stripped and truncated. -/
def timerNameOf (instruction : String) : String :=
  let base :=
    if instruction.data.contains '.' then instruction.data.takeWhile (· ≠ '.')
    else instruction.data.take 50
  truncate_text ⟨stripChars base⟩ 200

/-- `derive_timers_from_steps`: one timer per step with a truthy positive
`estimated_time`, duration in seconds, linked back via `step_order`. -/
def derive_timers_from_steps (steps : List RawStep) : List RawTimer :=
  steps.filterMap (fun step =>
    match step.estimated_time with
    | some t =>
        if t ≠ 0 ∧ t > 0 then
          let nm := timerNameOf step.instruction
          some ⟨(if nm = "" then "Step " ++ toString step.order else nm),
            t * 60, some step.order⟩
        else none
    | none => none)

/-- The `structured_data` dict both branches of `parse_recipe` build. -/
structure StructuredData where
  name : String
  description : String
  prep_time : ℤ
  cook_time : ℤ
  total_time : ℤ
  servings : ℤ
  image_url : String
  recipeIngredient : List String
  recipeInstructions : List String
  deriving Repr, DecidableEq

/-- `estimated_time` of a fallback step:
`(parse_duration_to_seconds(t) // 60) if parse_duration_to_seconds(t) else None`. -/
def fallbackStepTime (t : String) : Option ℤ :=
  match parse_duration_to_seconds t with
  | some s => if s ≠ 0 then some ((s / 60 : Nat) : ℤ) else none
  | none => none

/-- `fallback_regex_parse`: regex ingredient split, raw steps with detected
durations, derived timers; guarantees at least one step. -/
def fallback_regex_parse (sd : StructuredData) (source_url : String) : RawRecipe :=
  let ingredients := (sd.recipeIngredient.take MAX_INGREDIENTS).map (fun ing =>
    let qn := parse_ingredient_string ing
    (⟨truncate_text qn.2 MAX_INGREDIENT_CHARS,
      truncate_text qn.1 MAX_INGREDIENT_CHARS⟩ : RawIngredient))
  let steps0 := (sd.recipeInstructions.take MAX_STEPS).enum.map (fun si =>
    (⟨(si.1 : ℤ) + 1, truncate_text si.2 MAX_STEP_CHARS,
      fallbackStepTime si.2⟩ : RawStep))
  let steps :=
    if steps0.isEmpty then
      [(⟨1, "Follow recipe instructions from source", none⟩ : RawStep)]
    else steps0
  { name := sd.name
    description := sd.description
    prep_time := sd.prep_time
    cook_time := sd.cook_time
    servings := sd.servings
    image_url := sd.image_url
    source_url := source_url
    ingredients := ingredients
    steps := steps
    timers := derive_timers_from_steps steps }

/-- An entry of a JSON-LD `recipeInstructions` list: a string, or a dict
with a `text` key (`step.get('text', step)`). -/
inductive InstrVal where
  | strv (s : String)
  | dictv (text : String)

/-- The text extracted from an instruction entry. -/
def instrText : InstrVal → String
  | .strv s => s
  | .dictv t => t

/-- The fields of an extracted JSON-LD `Recipe` object that
`parse_recipe` reads. -/
structure JsonLd where
  name : Option String
  description : Option String
  prepTime : DurVal
  cookTime : DurVal
  totalTime : DurVal
  recipeYield : YieldVal
  image : ImageVal
  recipeIngredient : List String
  recipeInstructions : List InstrVal

/-- Python truthiness of an optional minute count. -/
def truthyOptInt : Option ℤ → Bool
  | some n => n ≠ 0
  | none => false

/-- The `structured_data` assembly of the JSON-LD branch of `parse_recipe`:
flexible time parsing, the `totalTime` fallback, servings with default 4,
image extraction, and truncation of all raw lines. -/
def structuredOfJsonLd (jl : JsonLd) : StructuredData :=
  let prep0 := parse_duration_flexible jl.prepTime
  let cook0 := parse_duration_flexible jl.cookTime
  let total := parse_duration_flexible jl.totalTime
  let useTotal := truthyOptInt total && !(truthyOptInt prep0 && truthyOptInt cook0)
  let cook1 := if useTotal then (if truthyOptInt cook0 then cook0 else total) else cook0
  let prep1 := if useTotal then (if truthyOptInt prep0 then prep0 else some 0) else prep0
  let servings :=
    match parse_servings jl.recipeYield with
    | some n => if n ≠ 0 then n else 4
    | none => 4
  { name := truncate_text (jl.name.getD "Recipe") 200
    description := truncate_text (jl.description.getD "") 1000
    prep_time := prep1.getD 0
    cook_time := cook1.getD 0
    total_time := total.getD 0
    servings := servings
    image_url := truncate_text (extract_image_url jl.image) 500
    recipeIngredient :=
      (jl.recipeIngredient.take MAX_INGREDIENTS).map
        (fun ing => truncate_text ing MAX_INGREDIENT_CHARS)
    recipeInstructions :=
      (jl.recipeInstructions.take MAX_STEPS).map
        (fun st => truncate_text (instrText st) MAX_STEP_CHARS) }

/-- What `extract_heuristic` returns (its DOM scanning is an oracle; the
dict always carries these keys). -/
structure HeuristicData where
  name : String
  image_url : String
  ingredients : List RawIngredient
  steps : List RawStep

/-- The `structured_data` assembly of the heuristic branch of
`parse_recipe`: zero times, default servings, ingredient lines re-joined
as `f"{quantity} {name}".strip()`. -/
def structuredOfHeuristic (hd : HeuristicData) : StructuredData :=
  { name := hd.name
    description := ""
    prep_time := 0
    cook_time := 0
    total_time := 0
    servings := 4
    image_url := hd.image_url
    recipeIngredient :=
      hd.ingredients.map (fun i => stripStr (i.quantity ++ " " ++ i.name))
    recipeInstructions := hd.steps.map (fun s => s.instruction) }

/-- The external effects of one `parse_recipe` call: the cache row for this
URL (`none` = miss or stale), the SSRF-protected fetch (modelled separately
as `fetch_html`), the `extruct` JSON-LD extraction, the `BeautifulSoup`
heuristics, and the two-provider LLM chain (`none` = both providers failed
or returned a falsy dict). -/
structure ImportEnv where
  cache : Option RawRecipe
  fetch : Except String String
  jsonld : String → Option JsonLd
  heuristic : String → HeuristicData
  llm : StructuredData → Option LLMData

/-- The `structured_data` a fetch result leads to: from the JSON-LD block
when one is found, else from the heuristic extraction. -/
def sdOf (env : ImportEnv) (html : String) : StructuredData :=
  match env.jsonld html with
  | some jl => structuredOfJsonLd jl
  | none => structuredOfHeuristic (env.heuristic html)

/-- The fresh (non-cached) part of `parse_recipe`: fetch, extract,
normalize-or-fallback, validate.  The method is `"ai"` on LLM success and
`"heuristic"` on LLM failure — the `"json-ld"` value assigned earlier is
overwritten in both cases.  The best-effort cache write does not affect
the returned value and is elided. -/
def parseFresh (env : ImportEnv) (url : String) :
    Except String (RawRecipe × String) :=
  match env.fetch with
  | .error e => .error e
  | .ok html =>
      let sd := sdOf env html
      match env.llm sd with
      | some ld =>
          match validateImportedRecipe (map_llm_to_imported_recipe ld url) with
          | .ok r => .ok (r, "ai")
          | .error e => .error e
      | none =>
          match validateImportedRecipe (fallback_regex_parse sd url) with
          | .ok r => .ok (r, "heuristic")
          | .error e => .error e

/-- `parse_recipe`: a cache hit that validates returns `"cached"`; a cache
row that fails validation is swallowed by the `except` and falls through
to a fresh import. -/
def parse_recipe (env : ImportEnv) (url : String) :
    Except String (RawRecipe × String) :=
  match env.cache with
  | some raw =>
      match validateImportedRecipe raw with
      | .ok r => .ok (r, "cached")
      | .error _ => parseFresh env url
  | none => parseFresh env url

/-! ## Concrete instances used by witnesses and counterexamples. -/

/-- A JSON-LD `Recipe` object as extracted from a fixture page: a name, one
raw ingredient line and one instruction line. -/
def jlC : JsonLd :=
  { name := some "Chocolate Cake"
    description := some "A cake."
    prepTime := .strv "PT10M"
    cookTime := .strv "PT20M"
    totalTime := .nonev
    recipeYield := .strv "4-6"
    image := .absent
    recipeIngredient := ["2 cups flour"]
    recipeInstructions := [.strv "Mix well"] }

/-- A heuristic extraction result (unused on the JSON-LD path). -/
def hdC : HeuristicData :=
  { name := "Imported Recipe"
    image_url := ""
    ingredients := [⟨"See source recipe", ""⟩]
    steps := [⟨1, "See source recipe for instructions", none⟩] }

/-- Environment of an import where the page carries a JSON-LD `Recipe`
block but both LLM providers fail. -/
def envC : ImportEnv :=
  { cache := none
    fetch := .ok "<html>recipe page</html>"
    jsonld := fun _ => some jlC
    heuristic := fun _ => hdC
    llm := fun _ => none }

/-- The structured data `envC` produces for its fixture page. -/
def sdC : StructuredData := structuredOfJsonLd jlC

/-- The fallback recipe built when the LLM fails in `envC`. -/
def rcC : RawRecipe := fallback_regex_parse sdC "http://example.com/r"

/-- A truthy LLM response containing two ingredients and one timer. -/
def llmC : LLMData :=
  { name := "Chocolate Cake"
    description := ""
    prep_time_minutes := 10
    cook_time_minutes := 20
    servings := 4
    image_url := ""
    ingredients := [⟨"flour", "2 cups"⟩, ⟨"sugar", "1 cup"⟩]
    timers := [⟨"Bake", 30⟩] }

/-- Environment of an import where the LLM normalization succeeds. -/
def envAI : ImportEnv :=
  { cache := none
    fetch := .ok "<html>recipe page</html>"
    jsonld := fun _ => some jlC
    heuristic := fun _ => hdC
    llm := fun _ => some llmC }

/-- The single placeholder step emitted by `map_llm_to_imported_recipe`. -/
def placeholderStep : RawStep :=
  ⟨1, "Follow recipe instructions from source", none⟩

/-- A payload with 200 valid ingredients (exceeding `max_items=50`), one
valid step, and in-range scalar fields. -/
def payload200 : RawRecipe :=
  { name := "Big Recipe"
    description := ""
    prep_time := 10
    cook_time := 20
    servings := 4
    image_url := ""
    source_url := "http://example.com/r"
    ingredients := List.replicate 200 ⟨"flour", "2 cups"⟩
    steps := [⟨1, "Mix", none⟩]
    timers := [] }

/-- `payload200` truncated to the schema bounds by hand. -/
def payload200Trunc : RawRecipe :=
  { payload200 with ingredients := payload200.ingredients.take 50 }

/-- The validated output of `envC`'s fallback import (`rcC` after the
no-op truncation validators). -/
def rcCv : RawRecipe :=
  { rcC with
    ingredients := rcC.ingredients.take 50
    steps := rcC.steps.take 30
    timers := rcC.timers.take 20 }

/-- The validated output of `envAI`'s LLM import (the mapped recipe after
the no-op truncation validators). -/
def rAIC : RawRecipe :=
  { map_llm_to_imported_recipe llmC "http://example.com/r" with
    ingredients :=
      (map_llm_to_imported_recipe llmC "http://example.com/r").ingredients.take 50
    steps :=
      (map_llm_to_imported_recipe llmC "http://example.com/r").steps.take 30
    timers :=
      (map_llm_to_imported_recipe llmC "http://example.com/r").timers.take 20 }


/-- A URL that always validates as safe in `envRedirC`. -/
def u0C : UrlParts := ⟨true, "http", some "a.example"⟩

/-- A network that answers every request with a 301 redirect to a safe
location. -/
def envRedirC : FetchEnv :=
  { net := fun _ => .resp 301 (some "http://a.example/next") "text/html" [] ""
    dns := fun h => if h = "a.example" then some [some (.v4 93 184 216 34)] else none
    urljoin := fun _ _ => u0C }

/-! ## Theorems -/

/-- C3: from the closed state, five consecutive `RecordFailure` calls open
the circuit (`consecutiveFailures = 5`, `isOpen` true, `lastFailureAt` the
fifth failure time); `CanAttempt` then returns false for every `now` before
`lastFailureAt + cooldown` and leaves the state unchanged, while the first
call at or after the cooldown boundary returns true and resets the state to
zero failures and a closed circuit.  Each `RecordFailure` increments the
counter, sets `isOpen` to (new count ≥ 5), records the failure time, and
returns the resulting `isOpen`. -/
theorem circuit_breaker_c3 (t1 t2 t3 t4 t5 : Nat) :
    (recordFailures [t1, t2, t3, t4, t5] CircuitState.closed =
      ⟨5, some t5, true⟩) ∧
    (∀ now, now < t5 + COOLDOWN_SECS →
      can_attempt_llm now ⟨5, some t5, true⟩ = (false, ⟨5, some t5, true⟩)) ∧
    (∀ now, t5 + COOLDOWN_SECS ≤ now →
      can_attempt_llm now ⟨5, some t5, true⟩ = (true, ⟨0, some t5, false⟩)) ∧
    (∀ (now : Nat) (s : CircuitState),
      record_llm_failure now s =
        (⟨s.consecutive_failures + 1, some now,
            decide (s.consecutive_failures + 1 ≥ FAILURE_THRESHOLD)⟩,
          decide (s.consecutive_failures + 1 ≥ FAILURE_THRESHOLD)) ∧
      (record_llm_failure now s).2 = (record_llm_failure now s).1.is_open) := by
  refine ⟨by simp [recordFailures, record_llm_failure, CircuitState.closed,
    FAILURE_THRESHOLD], ?_, ?_, ?_⟩
  · intro now h
    simp only [can_attempt_llm]
    rw [if_neg (by simp), if_neg (by omega)]
  · intro now h
    simp only [can_attempt_llm]
    rw [if_neg (by simp), if_pos (by omega)]
  · intro now s
    exact ⟨rfl, rfl⟩

/-- C3 witness: concrete failure times 1..5; `CanAttempt` blocks at
`now = 904 < 5 + 900` and reopens (with a reset) at `now = 905`. -/
theorem circuit_breaker_c3_witness :
    recordFailures [1, 2, 3, 4, 5] CircuitState.closed = ⟨5, some 5, true⟩ ∧
    can_attempt_llm 904 ⟨5, some 5, true⟩ = (false, ⟨5, some 5, true⟩) ∧
    can_attempt_llm 905 ⟨5, some 5, true⟩ = (true, ⟨0, some 5, false⟩) := by
  have h := circuit_breaker_c3 1 2 3 4 5
  exact ⟨h.1, h.2.1 904 (by decide), h.2.2.1 905 (by decide)⟩

/-- Characterization of `validate_url_safe` (helper for C1). -/
theorem validate_c1_iff (dns : DnsOracle) (u : UrlParts) :
    (validate_url_safe dns u).1 = true ↔
      (u.syntaxValid = true ∧ (u.scheme = "http" ∨ u.scheme = "https") ∧
        ∃ h addrs, u.hostname = some h ∧
          BLOCKED_DOMAINS.contains (lowerStr h) = false ∧
          dns h = some addrs ∧ ∀ a ∈ addrs, is_private_ip a = false) := by
  rcases u with ⟨sv, sch, host⟩
  unfold validate_url_safe
  cases sv with
  | false => simp
  | true =>
      simp only [Bool.not_true, Bool.false_eq_true, if_false]
      by_cases hsch : sch ≠ "http" ∧ sch ≠ "https"
      · rw [if_pos hsch]
        simp only [UrlParts.scheme]
        constructor
        · intro h; cases h
        · rintro ⟨-, hs, -⟩
          rcases hs with hs | hs <;> simp [hs] at hsch
      · rw [if_neg hsch]
        rcases host with _ | h
        · simp
        · simp only [UrlParts.hostname]
          by_cases hb : BLOCKED_DOMAINS.contains (lowerStr h) = true
          · rw [if_pos hb]
            constructor
            · intro hx; cases hx
            · rintro ⟨-, -, h', addrs, he, hbl, -⟩
              rw [Option.some_inj] at he; subst he
              rw [hb] at hbl; cases hbl
          · rw [if_neg hb]
            cases hdns : dns h with
            | none =>
                dsimp only
                constructor
                · intro hx; cases hx
                · rintro ⟨-, -, h', addrs, he, -, hd, -⟩
                  rw [Option.some_inj] at he; subst he
                  rw [hdns] at hd; cases hd
            | some addrs =>
                dsimp only
                cases hf : addrs.find? (fun a => is_private_ip a) with
                | some a =>
                    dsimp only
                    constructor
                    · intro hx; cases hx
                    · rintro ⟨-, -, h', addrs', he, -, hd, hall⟩
                      rw [Option.some_inj] at he; subst he
                      rw [hdns, Option.some_inj] at hd; subst hd
                      have h1 := List.find?_some hf
                      have hmem := List.mem_of_find?_eq_some hf
                      rw [hall a hmem] at h1
                      cases h1
                | none =>
                    dsimp only
                    constructor
                    · intro _
                      refine ⟨trivial, ?_, h, addrs, rfl, by simpa using hb, hdns, ?_⟩
                      · by_cases h1 : sch = "http"
                        · exact Or.inl h1
                        · right
                          by_contra h2
                          exact hsch ⟨h1, h2⟩
                      · intro a ha
                        have := List.find?_eq_none.mp hf a ha
                        simpa using this
                    · intro _; rfl

/-- C1: `Validate` is safe exactly when the URL passes syntax validation,
has an http/https scheme and a hostname whose lowercase form is not
denylisted, and DNS resolution succeeds with every resolved address (of any
family) parseable and outside the private/loopback/link-local ranges — so it
is unsafe on syntax failure, bad scheme, missing hostname, denylisted host,
resolution failure, any private resolved address, or any malformed resolved
address.  Concretely: `http://127.0.0.1/x` (resolving to itself),
`http://169.254.169.254/` (denylisted, for every DNS oracle), and a host
resolving only to `10.0.0.5` are unsafe; a host resolving only to the
public `93.184.216.34` is safe; a host resolving to a malformed address
string is unsafe. -/
theorem validate_url_safe_c1 :
    (∀ (dns : DnsOracle) (u : UrlParts),
      (validate_url_safe dns u).1 = true ↔
        (u.syntaxValid = true ∧ (u.scheme = "http" ∨ u.scheme = "https") ∧
          ∃ h addrs, u.hostname = some h ∧
            BLOCKED_DOMAINS.contains (lowerStr h) = false ∧
            dns h = some addrs ∧ ∀ a ∈ addrs, is_private_ip a = false)) ∧
    (validate_url_safe
      (fun h => if h = "127.0.0.1" then some [some (.v4 127 0 0 1)] else none)
      ⟨true, "http", some "127.0.0.1"⟩).1 = false ∧
    (∀ dns : DnsOracle,
      (validate_url_safe dns ⟨true, "http", some "169.254.169.254"⟩).1 = false) ∧
    (validate_url_safe
      (fun h => if h = "evil.com" then some [some (.v4 10 0 0 5)] else none)
      ⟨true, "http", some "evil.com"⟩).1 = false ∧
    (validate_url_safe
      (fun h => if h = "example.com" then some [some (.v4 93 184 216 34)] else none)
      ⟨true, "https", some "example.com"⟩).1 = true ∧
    (validate_url_safe (fun h => if h = "weird.host" then some [none] else none)
      ⟨true, "https", some "weird.host"⟩).1 = false :=
  ⟨validate_c1_iff, by decide, fun dns => rfl, by decide, by decide, by decide⟩

/-- Every URL in the trace produced by `fetchLoop` was approved by the
validator, provided the entry URL and all previously traced URLs were
(helper for C2). -/
theorem fetchLoop_trace_validated (env : FetchEnv) :
    ∀ (fuel count : Nat) (url : UrlParts) (trace : List UrlParts),
      (∀ u ∈ trace, (validate_url_safe env.dns u).1 = true) →
      (validate_url_safe env.dns url).1 = true →
      ∀ u ∈ (fetchLoop env fuel count url trace).2,
        (validate_url_safe env.dns u).1 = true := by
  intro fuel
  induction fuel with
  | zero => intro count url trace htr hu u hmem; exact htr u hmem
  | succ fuel ih =>
      intro count url trace htr hu u hmem
      have htr' : ∀ v ∈ trace ++ [url], (validate_url_safe env.dns v).1 = true := by
        intro v hv
        rcases List.mem_append.mp hv with hv | hv
        · exact htr v hv
        · rcases List.mem_singleton.mp hv with rfl; exact hu
      simp only [fetchLoop] at hmem
      cases hnet : env.net url with
      | exn e =>
          rw [hnet] at hmem
          dsimp only at hmem
          exact htr' u hmem
      | resp st loc ctype chunks body =>
          rw [hnet] at hmem
          dsimp only at hmem
          by_cases hred : isRedirectStatus st = true
          · rw [if_pos hred] at hmem
            by_cases hcnt : count + 1 > MAX_REDIRECTS
            · rw [if_pos hcnt] at hmem
              exact htr' u hmem
            · rw [if_neg hcnt] at hmem
              cases loc with
              | none => exact htr' u hmem
              | some l =>
                  simp only at hmem
                  by_cases hval :
                      (validate_url_safe env.dns (env.urljoin url l)).1 = true
                  · rw [if_pos hval] at hmem
                    exact ih (count + 1) (env.urljoin url l) (trace ++ [url])
                      htr' hval u hmem
                  · rw [if_neg hval] at hmem
                    exact htr' u hmem
          · rw [if_neg hred] at hmem
            by_cases h1 : (200 ≤ st && st < 300) = true
            · simp only [h1, Bool.not_true, Bool.false_eq_true, if_false] at hmem
              split at hmem
              · exact htr' u hmem
              · split at hmem
                · exact htr' u hmem
                · exact htr' u hmem
            · simp only [Bool.not_eq_true] at h1
              simp only [h1, Bool.not_false, if_true] at hmem
              exact htr' u hmem

/-- The trace grows by at most one URL per unit of fuel (helper for C2). -/
theorem fetchLoop_trace_length (env : FetchEnv) :
    ∀ (fuel count : Nat) (url : UrlParts) (trace : List UrlParts),
      (fetchLoop env fuel count url trace).2.length ≤ trace.length + fuel := by
  intro fuel
  induction fuel with
  | zero => intro count url trace; simp [fetchLoop]
  | succ fuel ih =>
      intro count url trace
      simp only [fetchLoop]
      cases hnet : env.net url with
      | exn e => simp
      | resp st loc ctype chunks body =>
          dsimp only
          by_cases hred : isRedirectStatus st = true
          · rw [if_pos hred]
            by_cases hcnt : count + 1 > MAX_REDIRECTS
            · rw [if_pos hcnt]; simp
            · rw [if_neg hcnt]
              cases loc with
              | none => simp
              | some l =>
                  simp only
                  by_cases hval :
                      (validate_url_safe env.dns (env.urljoin url l)).1 = true
                  · rw [if_pos hval]
                    calc (fetchLoop env fuel (count + 1) (env.urljoin url l)
                            (trace ++ [url])).2.length
                        ≤ (trace ++ [url]).length + fuel := ih _ _ _
                      _ = trace.length + (fuel + 1) := by simp; omega
                  · rw [if_neg hval]; simp
          · rw [if_neg hred]
            split
            · simp
            · split
              · simp
              · split
                · simp
                · simp

/-- C2: every request `fetch_html` issues — the initial one and every
redirect follow — is for a URL the validator approved immediately before
the request; at most `MAX_REDIRECTS + 1 = 4` requests are issued; and an
environment that keeps answering 3xx makes the fetch fail with the
too-many-redirects error after exactly 4 requests. -/
theorem fetch_html_c2 :
    (∀ (env : FetchEnv) (url : UrlParts),
      (∀ u ∈ (fetch_html env url).2, (validate_url_safe env.dns u).1 = true) ∧
      (fetch_html env url).2.length ≤ MAX_REDIRECTS + 1) ∧
    fetch_html envRedirC u0C =
      (.error "Too many redirects (max 3)", [u0C, u0C, u0C, u0C]) := by
  refine ⟨fun env url => ⟨?_, ?_⟩, by rfl⟩
  · intro u hmem
    unfold fetch_html at hmem
    by_cases hv : (validate_url_safe env.dns url).1 = true
    · rw [if_pos hv] at hmem
      exact fetchLoop_trace_validated env (MAX_REDIRECTS + 1) 0 url [] (by simp) hv u hmem
    · rw [if_neg hv] at hmem
      simp at hmem
  · unfold fetch_html
    by_cases hv : (validate_url_safe env.dns url).1 = true
    · rw [if_pos hv]
      have := fetchLoop_trace_length env (MAX_REDIRECTS + 1) 0 url []
      simpa using this
    · rw [if_neg hv]
      simp

/-- C2 witness: in the always-redirecting environment the theorem yields
that the (concretely traced) first request URL was validated, and the
request count is within the bound. -/
theorem fetch_html_c2_witness :
    (validate_url_safe envRedirC.dns u0C).1 = true ∧
    (fetch_html envRedirC u0C).2.length ≤ MAX_REDIRECTS + 1 := by
  refine ⟨(fetch_html_c2.1 envRedirC u0C).1 u0C ?_, (fetch_html_c2.1 envRedirC u0C).2⟩
  rw [fetch_html_c2.2]
  exact List.mem_cons_self _ _

/-- A validated recipe is the payload with the (no-op) truncations applied
(helper for C4/C10). -/
theorem validate_ok_shape (r r' : RawRecipe)
    (h : validateImportedRecipe r = .ok r') :
    r' = { r with
      ingredients := r.ingredients.take 50
      steps := r.steps.take 30
      timers := r.timers.take 20 } := by
  unfold validateImportedRecipe at h
  split at h
  · cases h
    rfl
  · cases h

set_option maxRecDepth 8192 in
/-- C5: the claim's behaviour does not hold — a payload with 200
individually valid ingredients is rejected by the `max_items=50` field
constraint, which pydantic runs before the truncating post-validator, so
construction raises instead of silently truncating; the same payload cut
to 50 items by hand validates unchanged. -/
theorem imported_recipe_c5 :
    payload200.ingredients.length = 200 ∧
    payload200.ingredients.all (chkIngredient ·) = true ∧
    validateImportedRecipe payload200 = .error "ValidationError" ∧
    validateImportedRecipe payload200Trunc = .ok payload200Trunc := by
  refine ⟨by simp [payload200], by decide, by rfl, by rfl⟩

/-- C10: every recipe produced by `map_llm_to_imported_recipe` has exactly
the one placeholder step (order 1, instruction "Follow recipe instructions
from source", no estimated time) regardless of the draft, and every timer
in it has a `None` `step_order`; consequently every import that reports
method `"ai"` returns a recipe whose steps are exactly that placeholder. -/
theorem map_llm_c10 :
    (∀ (d : LLMData) (url : String),
      (map_llm_to_imported_recipe d url).steps = [placeholderStep] ∧
      ∀ t ∈ (map_llm_to_imported_recipe d url).timers, t.step_order = none) ∧
    (∀ (env : ImportEnv) (url : String) (r : RawRecipe),
      parse_recipe env url = .ok (r, "ai") → r.steps = [placeholderStep]) := by
  constructor
  · intro d url
    refine ⟨rfl, ?_⟩
    intro t ht
    simp only [map_llm_to_imported_recipe, List.mem_map] at ht
    obtain ⟨t0, -, rfl⟩ := ht
    rfl
  · intro env url r h
    unfold parse_recipe at h
    have hfresh : ∀ (hpf : parseFresh env url = .ok (r, "ai")),
        r.steps = [placeholderStep] := by
      intro hpf
      unfold parseFresh at hpf
      cases hfe : env.fetch with
      | error e => rw [hfe] at hpf; cases hpf
      | ok html =>
          rw [hfe] at hpf
          dsimp only at hpf
          cases hllm : env.llm (sdOf env html) with
          | some ld =>
              rw [hllm] at hpf
              dsimp only at hpf
              cases hval : validateImportedRecipe
                  (map_llm_to_imported_recipe ld url) with
              | ok r1 =>
                  rw [hval] at hpf
                  dsimp only at hpf
                  simp only [Except.ok.injEq, Prod.mk.injEq] at hpf
                  obtain ⟨rfl, -⟩ := hpf
                  have := validate_ok_shape _ _ hval
                  rw [this]
                  rfl
              | error e => rw [hval] at hpf; cases hpf
          | none =>
              rw [hllm] at hpf
              dsimp only at hpf
              cases hval : validateImportedRecipe
                  (fallback_regex_parse (sdOf env html) url) with
              | ok r1 =>
                  rw [hval] at hpf
                  dsimp only at hpf
                  simp at hpf
              | error e => rw [hval] at hpf; cases hpf
    cases hc : env.cache with
    | none => rw [hc] at h; exact hfresh h
    | some raw =>
        rw [hc] at h
        dsimp only at h
        cases hval : validateImportedRecipe raw with
        | ok r0 =>
            rw [hval] at h
            dsimp only at h
            simp at h
        | error e =>
            rw [hval] at h
            dsimp only at h
            exact hfresh h

/-- C10 witness: the LLM-success environment `envAI` yields method `"ai"`
and its validated recipe has exactly the placeholder step. -/
theorem map_llm_c10_witness : rAIC.steps = [placeholderStep] :=
  map_llm_c10.2 envAI "http://example.com/r" rAIC (by rfl)

/-- C4 counterexample: in `envC` the page carries a JSON-LD `Recipe`
block and both LLM providers fail, yet the reported extraction method is
`"heuristic"`, not `"json-ld"` as the claim requires. -/
theorem parse_recipe_c4_counterexample :
    (envC.jsonld "<html>recipe page</html>").isSome = true ∧
    envC.llm (sdOf envC "<html>recipe page</html>") = none ∧
    Except.map (fun p => p.2) (parse_recipe envC "http://example.com/r") =
      .ok "heuristic" :=
  ⟨rfl, rfl, by rfl⟩

/-- C4 (amended): for every import that is not served from the cache, the
reported method is `"ai"` exactly when LLM normalization succeeds; when
normalization fails the reported method is always `"heuristic"`, even when
a structured JSON-LD `Recipe` block was found. -/
theorem parse_recipe_c4_amended (env : ImportEnv) (url html : String)
    (r : RawRecipe) (m : String) (hc : env.cache = none)
    (hf : env.fetch = .ok html) (h : parse_recipe env url = .ok (r, m)) :
    (m = "ai" ↔ (env.llm (sdOf env html)).isSome = true) ∧
    (env.llm (sdOf env html) = none → m = "heuristic") := by
  unfold parse_recipe at h
  rw [hc] at h
  unfold parseFresh at h
  rw [hf] at h
  dsimp only at h
  cases hllm : env.llm (sdOf env html) with
  | some ld =>
      rw [hllm] at h
      dsimp only at h
      cases hval : validateImportedRecipe (map_llm_to_imported_recipe ld url) with
      | ok r1 =>
          rw [hval] at h
          simp only [Except.ok.injEq, Prod.mk.injEq] at h
          obtain ⟨-, rfl⟩ := h
          simp
      | error e => rw [hval] at h; cases h
  | none =>
      rw [hllm] at h
      dsimp only at h
      cases hval : validateImportedRecipe
          (fallback_regex_parse (sdOf env html) url) with
      | ok r1 =>
          rw [hval] at h
          simp only [Except.ok.injEq, Prod.mk.injEq] at h
          obtain ⟨-, rfl⟩ := h
          simp
      | error e => rw [hval] at h; cases h

/-- C4 witness: the amended theorem applied to `envC`, whose LLM fails:
the method `"heuristic"` is not `"ai"`, and is forced by the failure. -/
theorem parse_recipe_c4_witness :
    ("heuristic" = "ai" ↔
      (envC.llm (sdOf envC "<html>recipe page</html>")).isSome = true) ∧
    (envC.llm (sdOf envC "<html>recipe page</html>") = none →
      "heuristic" = "heuristic") :=
  parse_recipe_c4_amended envC "http://example.com/r" "<html>recipe page</html>"
    rcCv "heuristic" rfl rfl (by rfl)

/-- A digit character is unchanged by `str.lower` (helper). -/
theorem lowerChar_digit {c : Char} (h : isDigitCh c = true) : lowerChar c = c := by
  simp only [isDigitCh, Bool.and_eq_true, decide_eq_true_eq] at h
  unfold lowerChar
  rw [if_neg (by omega)]

/-- Inside a digit run, the accumulator absorbs the run and stops at the
unit letter (helper for C6). -/
theorem scanUnitRun_digits {unit : Char} (hu : isDigitCh unit = false) :
    ∀ (ds : List Char) (acc : Nat) (rest : List Char),
      (∀ c ∈ ds, isDigitCh c = true) →
      scanUnitRun unit acc (ds ++ unit :: rest) =
        some (ds.foldl (fun a c => a * 10 + digitVal c) acc) := by
  intro ds
  induction ds with
  | nil =>
      intro acc rest _
      simp [scanUnitRun, hu]
  | cons d ds ih =>
      intro acc rest hds
      have hd : isDigitCh d = true := hds d (by simp)
      simp only [List.cons_append, scanUnitRun, hd, if_true, List.foldl_cons, List.append_eq]
      exact ih _ rest (fun c hc => hds c (by simp [hc]))

/-- A nonempty digit run immediately followed by the unit letter is
captured with its value (helper for C6). -/
theorem scanUnit_digits {unit : Char} (hu : isDigitCh unit = false)
    (ds : List Char) (rest : List Char) (hne : ds ≠ [])
    (hds : ∀ c ∈ ds, isDigitCh c = true) :
    scanUnit unit (ds ++ unit :: rest) = some (digitsVal ds) := by
  cases ds with
  | nil => cases hne rfl
  | cons d ds =>
      have hd : isDigitCh d = true := hds d (by simp)
      simp only [List.cons_append, scanUnit, hd, if_true, List.append_eq]
      rw [scanUnitRun_digits hu ds (digitVal d) rest
        (fun c hc => hds c (by simp [hc]))]
      simp [digitsVal]

/-- Passing over a digit run that ends at a non-digit, non-unit character
resumes the scan after that character (helper for C6). -/
theorem scanUnitRun_pass {unit c : Char} (hc : isDigitCh c = false)
    (hne : c ≠ unit) :
    ∀ (ds : List Char) (acc : Nat) (rest : List Char),
      (∀ x ∈ ds, isDigitCh x = true) →
      scanUnitRun unit acc (ds ++ c :: rest) = scanUnit unit rest := by
  intro ds
  induction ds with
  | nil =>
      intro acc rest _
      simp [scanUnitRun, hc, hne]
  | cons d ds ih =>
      intro acc rest hds
      have hd : isDigitCh d = true := hds d (by simp)
      simp only [List.cons_append, scanUnitRun, hd, if_true, List.append_eq]
      exact ih _ rest (fun x hx => hds x (by simp [hx]))

/-- Same as `scanUnitRun_pass` at the scan level (helper for C6). -/
theorem scanUnit_pass {unit c : Char} (hc : isDigitCh c = false)
    (hne : c ≠ unit) (ds : List Char) (rest : List Char)
    (hds : ∀ x ∈ ds, isDigitCh x = true) :
    scanUnit unit (ds ++ c :: rest) = scanUnit unit rest := by
  cases ds with
  | nil => simp [scanUnit, hc]
  | cons d ds =>
      have hd : isDigitCh d = true := hds d (by simp)
      simp only [List.cons_append, scanUnit, hd, if_true, List.append_eq]
      exact scanUnitRun_pass hc hne ds _ rest (fun x hx => hds x (by simp [hx]))

/-- If the unit letter does not occur, nothing is captured (helper for C6). -/
theorem scan_none_of_not_mem (unit : Char) :
    ∀ cs : List Char, unit ∉ cs →
      scanUnit unit cs = none ∧ ∀ acc, scanUnitRun unit acc cs = none := by
  intro cs
  induction cs with
  | nil => intro _; exact ⟨rfl, fun _ => rfl⟩
  | cons c cs ih =>
      intro hmem
      have hcu : c ≠ unit := fun h => hmem (by simp [h])
      have hrest : unit ∉ cs := fun h => hmem (by simp [h])
      refine ⟨?_, ?_⟩
      · by_cases hd : isDigitCh c = true
        · simp only [scanUnit, hd, if_true]
          exact (ih hrest).2 _
        · simp only [Bool.not_eq_true] at hd
          simp only [scanUnit, hd, Bool.false_eq_true, if_false]
          exact (ih hrest).1
      · intro acc
        by_cases hd : isDigitCh c = true
        · simp only [scanUnitRun, hd, if_true]
          exact (ih hrest).2 _
        · simp only [Bool.not_eq_true] at hd
          simp only [scanUnitRun, hd, Bool.false_eq_true, if_false, if_neg hcu]
          exact (ih hrest).1

/-- If the unit letter does not occur, the anchored search fails
(helper for C6). -/
theorem scanAnchored_none (anchor unit : Char) :
    ∀ cs : List Char, unit ∉ cs → scanAnchored anchor unit cs = none := by
  intro cs
  induction cs with
  | nil => intro _; rfl
  | cons c cs ih =>
      intro hmem
      have hrest : unit ∉ cs := fun h => hmem (by simp [h])
      by_cases hc : c = anchor
      · simp only [scanAnchored, if_pos hc,
          (scan_none_of_not_mem unit cs hrest).1]
        exact ih hrest
      · simp only [scanAnchored, if_neg hc]
        exact ih hrest

/-- C6 counterexample: at `h = m = 0` the code returns `None`, not `0`,
refuting the claim's universal clause. -/
theorem parse_iso_c6_counterexample :
    parse_iso8601_duration "PT0H0M" ≠ some (0 * 60 + 0) ∧
    parse_iso8601_duration "PT0H0M" = none := by
  exact ⟨by decide, by decide⟩

/-- C6 (amended): for all digit strings `h`, `m`,
`ParseIso8601Duration("PT{h}H{m}M")` returns `h*60+m` when that total is
positive and `None` when it is zero; an input such as `"PT0S"` in which no
day/hour/minute component is matched also returns `None`, never `0`. -/
theorem parse_iso_c6 :
    (∀ dh dm : List Char, dh ≠ [] → dm ≠ [] →
      (∀ c ∈ dh, isDigitCh c = true) → (∀ c ∈ dm, isDigitCh c = true) →
      parse_iso8601_duration ⟨'P' :: 'T' :: (dh ++ 'H' :: (dm ++ ['M']))⟩ =
        if 0 < digitsVal dh * 60 + digitsVal dm
        then some (digitsVal dh * 60 + digitsVal dm) else none) ∧
    parse_iso8601_duration "PT0S" = none := by
  refine ⟨?_, by decide⟩
  intro dh dm hdh hdm hddh hddm
  have hD : ('D' : Char) ∉ 'P' :: 'T' :: (dh ++ 'H' :: (dm ++ ['M'])) := by
    intro hmem
    simp only [List.mem_cons, List.mem_append, List.mem_singleton] at hmem
    rcases hmem with h | h | h | h | h | h
    · exact absurd h (by decide)
    · exact absurd h (by decide)
    · exact absurd (hddh _ h) (by decide)
    · exact absurd h (by decide)
    · exact absurd (hddm _ h) (by decide)
    · exact absurd h (by decide)
  have hdays : scanAnchored 'P' 'D' ('P' :: 'T' :: (dh ++ 'H' :: (dm ++ ['M']))) = none :=
    scanAnchored_none 'P' 'D' _ hD
  have hhours : scanAnchored 'T' 'H' ('P' :: 'T' :: (dh ++ 'H' :: (dm ++ ['M']))) =
      some (digitsVal dh) := by
    have h1 : scanUnit 'H' (dh ++ 'H' :: (dm ++ ['M'])) = some (digitsVal dh) :=
      scanUnit_digits (by decide) dh (dm ++ ['M']) hdh hddh
    simp [scanAnchored, h1]
  have hmins : scanAnchored 'T' 'M' ('P' :: 'T' :: (dh ++ 'H' :: (dm ++ ['M']))) =
      some (digitsVal dm) := by
    have h1 : scanUnit 'M' (dh ++ 'H' :: (dm ++ ['M'])) = some (digitsVal dm) := by
      rw [scanUnit_pass (by decide) (by decide) dh (dm ++ ['M']) hddh]
      exact scanUnit_digits (by decide) dm [] hdm hddm
    simp [scanAnchored, h1]
  unfold parse_iso8601_duration
  rw [if_neg (by simp [String.ext_iff])]
  simp only [hdays, hhours, hmins, Option.getD]
  norm_num

/-- C6 witness: `h = 1`, `m = 30` gives `PT1H30M` ↦ 90 minutes. -/
theorem parse_iso_c6_witness : parse_iso8601_duration "PT1H30M" = some 90 := by
  have h := parse_iso_c6.1 ['1'] ['3', '0'] (by decide) (by decide)
    (by decide) (by decide)
  exact h.trans (by decide)

/-- Digit strings are fixed by lowercasing (helper for C7). -/
theorem map_lowerChar_digits (ds : List Char)
    (h : ∀ c ∈ ds, isDigitCh c = true) : ds.map lowerChar = ds := by
  induction ds with
  | nil => rfl
  | cons d ds ih =>
      simp only [List.map_cons, lowerChar_digit (h d (by simp)),
        ih (fun c hc => h c (by simp [hc])), List.cons.injEq, and_self]

/-- `takeWhile` over a satisfying block stops at the first character of the
tail (helper for C7). -/
theorem takeWhile_append_block (p : Char → Bool) (ds tail : List Char)
    (h1 : ∀ c ∈ ds, p c = true)
    (h2 : ∀ c, tail.head? = some c → p c = false) :
    (ds ++ tail).takeWhile p = ds := by
  induction ds with
  | nil =>
      cases tail with
      | nil => rfl
      | cons c t => simp [List.takeWhile, h2 c rfl]
  | cons d ds ih =>
      simp only [List.cons_append, List.takeWhile, h1 d (by simp), if_true,
        List.append_eq]
      rw [ih (fun c hc => h1 c (by simp [hc]))]

/-- A nonempty digit block followed by a non-digit, non-dot tail is matched
as a scale-0 number (helper for C7). -/
theorem matchNum_digits (ds tail : List Char) (hne : ds ≠ [])
    (hds : ∀ c ∈ ds, isDigitCh c = true)
    (htail : ∀ c, tail.head? = some c → isDigitCh c = false ∧ c ≠ '.') :
    matchNum (ds ++ tail) = some (⟨digitsVal ds, 0⟩, tail) := by
  unfold matchNum
  rw [takeWhile_append_block _ ds tail hds (fun c hc => (htail c hc).1)]
  rw [if_neg (by simp [List.isEmpty_iff, hne])]
  rw [List.drop_left]
  cases tail with
  | nil => rfl
  | cons c t =>
      have hdot : c ≠ '.' := (htail c rfl).2
      dsimp only
      split
      next rest2 heq =>
        rw [List.cons.injEq] at heq
        exact absurd heq.1 hdot
      next => rfl

/-- `\s*` passes over a space (helper for C7). -/
theorem skipSpaces_cons_space (x : List Char) :
    skipSpaces (' ' :: x) = skipSpaces x := rfl

/-- `\s*` is the identity when the head is not whitespace (helper for C7). -/
theorem skipSpaces_of_head (x : List Char)
    (h : ∀ c, x.head? = some c → isSpaceCh c = false) : skipSpaces x = x := by
  cases x with
  | nil => rfl
  | cons c t => simp [skipSpaces, List.dropWhile, h c rfl]

/-- A range attempt at a non-digit head fails (helper for C7). -/
theorem tryRange_nondigit (alts : List (List Char)) (c : Char)
    (rest : List Char) (h : isDigitCh c = false) :
    tryRange alts (c :: rest) = none := by
  unfold tryRange matchNum
  simp [List.takeWhile, h]

/-- `re.search` of a range pattern skips a non-digit head (helper for C7). -/
theorem searchRange_cons_nondigit (alts : List (List Char)) (c : Char)
    (rest : List Char) (h : isDigitCh c = false) :
    searchRange alts (c :: rest) = searchRange alts rest := by
  simp [searchRange, tryRange_nondigit alts c rest h]

/-- `re.search` of a range pattern succeeding at the head (helper for C7). -/
theorem searchRange_head_some (alts : List (List Char)) (cs : List Char)
    (v : DecNum × DecNum) (h : tryRange alts cs = some v) :
    searchRange alts cs = some v := by
  cases cs with
  | nil => simp [tryRange, matchNum, List.takeWhile] at h
  | cons c rest => simp [searchRange, h]

/-- A range attempt starting with a digit block reduces to the continuation
after that block (helper for C7). -/
theorem tryRange_digits (alts : List (List Char)) (ds tail : List Char)
    (hne : ds ≠ []) (hds : ∀ c ∈ ds, isDigitCh c = true)
    (htail : ∀ c, tail.head? = some c → isDigitCh c = false ∧ c ≠ '.') :
    tryRange alts (ds ++ tail) =
      match matchToDash (skipSpaces tail) with
      | none => none
      | some r2 =>
          match matchNum (skipSpaces r2) with
          | none => none
          | some (b, r3) =>
              if unitHere alts (skipSpaces r3) then some (⟨digitsVal ds, 0⟩, b)
              else none := by
  unfold tryRange
  rw [matchNum_digits ds tail hne hds htail]

/-- A failing range continuation lets the search pass over a whole digit
block (helper for C7). -/
theorem searchRange_append_digits (alts : List (List Char)) (ds tail : List Char)
    (hds : ∀ c ∈ ds, isDigitCh c = true)
    (htail : ∀ c, tail.head? = some c → isDigitCh c = false ∧ c ≠ '.')
    (hfail : tryRange alts ('0' :: tail) = none) :
    searchRange alts (ds ++ tail) = searchRange alts tail := by
  have hcont :
      (match matchToDash (skipSpaces tail) with
        | none => none
        | some r2 =>
            match matchNum (skipSpaces r2) with
            | none => none
            | some (b, r3) =>
                if unitHere alts (skipSpaces r3) then
                  some ((⟨digitsVal ['0'], 0⟩ : DecNum), b)
                else none) = (none : Option (DecNum × DecNum)) := by
    rw [← tryRange_digits alts ['0'] tail (by simp) (by decide) htail]
    exact hfail
  induction ds with
  | nil => simp
  | cons d ds ih =>
      have hd : isDigitCh d = true := hds d (by simp)
      have hnone : tryRange alts ((d :: ds) ++ tail) = none := by
        rw [tryRange_digits alts (d :: ds) tail (by simp) hds htail]
        cases h1 : matchToDash (skipSpaces tail) with
        | none => rfl
        | some r2 =>
            dsimp only
            rw [h1] at hcont
            dsimp only at hcont
            cases h2 : matchNum (skipSpaces r2) with
            | none => rfl
            | some br =>
                dsimp only
                rw [h2] at hcont
                dsimp only at hcont
                obtain ⟨b, r3⟩ := br
                by_cases h3 : unitHere alts (skipSpaces r3) = true
                · rw [if_pos h3] at hcont; cases hcont
                · dsimp only
                  rw [if_neg h3]
      have hstep : searchRange alts (d :: (ds ++ tail)) =
          searchRange alts (ds ++ tail) := by
        have h' := hnone
        rw [List.cons_append] at h'
        simp [searchRange, h']
      rw [List.cons_append, hstep]
      exact ih (fun c hc => hds c (by simp [hc]))

/-- A single-value attempt at a digit block (helper for C7). -/
theorem trySingle_digits (alts : List (List Char)) (ds tail : List Char)
    (hne : ds ≠ []) (hds : ∀ c ∈ ds, isDigitCh c = true)
    (htail : ∀ c, tail.head? = some c → isDigitCh c = false ∧ c ≠ '.') :
    trySingle alts (ds ++ tail) =
      if unitHere alts (skipSpaces tail) then some (⟨digitsVal ds, 0⟩ : DecNum)
      else none := by
  unfold trySingle
  rw [matchNum_digits ds tail hne hds htail]

/-- `re.search` of a single-value pattern succeeding at the head
(helper for C7). -/
theorem searchSingle_head_some (alts : List (List Char)) (cs : List Char)
    (v : DecNum) (h : trySingle alts cs = some v) :
    searchSingle alts cs = some v := by
  cases cs with
  | nil => simp [trySingle, matchNum, List.takeWhile] at h
  | cons c rest => simp [searchSingle, h]

/-- A digit is not whitespace (helper). -/
theorem digit_not_space {c : Char} (h : isDigitCh c = true) :
    isSpaceCh c = false := by
  simp only [isDigitCh, Bool.and_eq_true, decide_eq_true_eq] at h
  simp only [isSpaceCh]
  simp only [Bool.or_eq_false_iff, decide_eq_false_iff_not]
  omega

/-- `decTimes` with an integer-valued number (helper for C7). -/
theorem decTimes_scale0 (n mult : Nat) :
    decTimes ⟨n, 0⟩ mult = n * mult := by
  simp [decTimes]

/-- `decMidTimes` on integer minute bounds is the exact midpoint formula
(helper for C7). -/
theorem decMidTimes_scale0_60 (a b : Nat) :
    decMidTimes ⟨a, 0⟩ ⟨b, 0⟩ 60 = (a + b) * 30 := by
  simp only [decMidTimes, Nat.max_self, Nat.sub_self, pow_zero, Nat.mul_one]
  omega

/-- `ParseNaturalDuration` on `"{N} hours"` (helper for C7). -/
theorem parse_hours_aux (ds : List Char) (hne : ds ≠ [])
    (hds : ∀ c ∈ ds, isDigitCh c = true) :
    parse_duration_to_seconds ⟨ds ++ (" hours").data⟩ =
      some (digitsVal ds * 3600) := by
  have htail : ∀ c, ((" hours").data).head? = some c →
      isDigitCh c = false ∧ c ≠ '.' := by decide
  unfold parse_duration_to_seconds
  rw [if_neg (by simp [String.ext_iff, hne])]
  have hdata : (String.mk (ds ++ (" hours").data)).data = ds ++ (" hours").data := rfl
  rw [hdata]
  rw [List.map_append, map_lowerChar_digits ds hds,
    show ((" hours").data).map lowerChar = (" hours").data from by decide]
  dsimp only
  rw [searchRange_append_digits hourAlts ds _ hds htail (by decide),
    show searchRange hourAlts ((" hours").data) = none from by decide]
  dsimp only
  rw [searchRange_append_digits minuteAlts ds _ hds htail (by decide),
    show searchRange minuteAlts ((" hours").data) = none from by decide]
  dsimp only
  rw [searchRange_append_digits secondAlts ds _ hds htail (by decide),
    show searchRange secondAlts ((" hours").data) = none from by decide]
  dsimp only
  rw [searchSingle_head_some hourAlts _ ⟨digitsVal ds, 0⟩ (by
    rw [trySingle_digits hourAlts ds _ hne hds htail]
    rw [if_pos (by decide)])]
  dsimp only
  rw [decTimes_scale0]

/-- `(?:to|-)` takes the `to` branch (helper for C7). -/
theorem matchToDash_to (rest : List Char) :
    matchToDash ('t' :: 'o' :: rest) = some rest := rfl

/-- `(?:to|-)` takes the `-` branch (helper for C7). -/
theorem matchToDash_dash (rest : List Char) :
    matchToDash ('-' :: rest) = some rest := rfl

/-- `ParseNaturalDuration` on `"{A} to {B} minutes"` (helper for C7). -/
theorem parse_range_to_aux (da db : List Char) (hnea : da ≠ []) (hneb : db ≠ [])
    (hda : ∀ c ∈ da, isDigitCh c = true) (hdb : ∀ c ∈ db, isDigitCh c = true) :
    parse_duration_to_seconds
        ⟨da ++ (' ' :: 't' :: 'o' :: ' ' :: (db ++ (" minutes").data))⟩ =
      some ((digitsVal da + digitsVal db) * 30) := by
  obtain ⟨d0, db', rfl⟩ : ∃ d0 db', db = d0 :: db' := by
    cases db with
    | nil => cases hneb rfl
    | cons d0 db' => exact ⟨d0, db', rfl⟩
  have hd0 : isDigitCh d0 = true := hdb d0 (by simp)
  have htail1 : ∀ c,
      (' ' :: 't' :: 'o' :: ' ' :: ((d0 :: db') ++ (" minutes").data)).head? = some c →
        isDigitCh c = false ∧ c ≠ '.' := by
    intro c hc
    rw [List.head?_cons, Option.some_inj] at hc
    subst hc
    exact ⟨by decide, by decide⟩
  have hskip_db : skipSpaces ((d0 :: db') ++ (" minutes").data) =
      (d0 :: db') ++ (" minutes").data := by
    refine skipSpaces_of_head _ ?_
    intro c hc
    rw [List.cons_append, List.head?_cons, Option.some_inj] at hc
    subst hc
    exact digit_not_space hd0
  have hmatchdb : matchNum ((d0 :: db') ++ (" minutes").data) =
      some (⟨digitsVal (d0 :: db'), 0⟩, (" minutes").data) := by
    refine matchNum_digits _ _ (by simp) hdb ?_
    intro c hc
    rw [List.head?_cons, Option.some_inj] at hc
    subst hc
    exact ⟨by decide, by decide⟩
  have hskip1 : skipSpaces (' ' :: 't' :: 'o' :: ' ' :: ((d0 :: db') ++ (" minutes").data)) =
      't' :: 'o' :: ' ' :: ((d0 :: db') ++ (" minutes").data) := by
    rw [skipSpaces_cons_space]
    refine skipSpaces_of_head _ ?_
    intro c hc
    rw [List.head?_cons, Option.some_inj] at hc
    subst hc
    decide
  have hskip2 : skipSpaces (' ' :: ((d0 :: db') ++ (" minutes").data)) =
      (d0 :: db') ++ (" minutes").data := by
    rw [skipSpaces_cons_space]; exact hskip_db
  have hcontH : tryRange hourAlts
      ('0' :: (' ' :: 't' :: 'o' :: ' ' :: ((d0 :: db') ++ (" minutes").data))) = none := by
    rw [show ('0' :: (' ' :: 't' :: 'o' :: ' ' :: ((d0 :: db') ++ (" minutes").data))) =
      ['0'] ++ (' ' :: 't' :: 'o' :: ' ' :: ((d0 :: db') ++ (" minutes").data)) from rfl]
    rw [tryRange_digits hourAlts ['0'] _ (by simp) (by decide) htail1]
    rw [hskip1, matchToDash_to]
    dsimp only
    rw [hskip2, hmatchdb]
    dsimp only
    rw [show skipSpaces ((" minutes").data) = ("minutes").data from by decide]
    rw [if_neg (by decide)]
  have hsucc : tryRange minuteAlts
      (da ++ (' ' :: 't' :: 'o' :: ' ' :: ((d0 :: db') ++ (" minutes").data))) =
      some (⟨digitsVal da, 0⟩, ⟨digitsVal (d0 :: db'), 0⟩) := by
    rw [tryRange_digits minuteAlts da _ hnea hda htail1]
    rw [hskip1, matchToDash_to]
    dsimp only
    rw [hskip2, hmatchdb]
    dsimp only
    rw [show skipSpaces ((" minutes").data) = ("minutes").data from by decide]
    rw [if_pos (by decide)]
  unfold parse_duration_to_seconds
  rw [if_neg (by simp [String.ext_iff, hnea])]
  rw [show (String.mk (da ++ (' ' :: 't' :: 'o' :: ' ' :: ((d0 :: db') ++ (" minutes").data)))).data =
    da ++ (' ' :: 't' :: 'o' :: ' ' :: ((d0 :: db') ++ (" minutes").data)) from rfl]
  rw [List.map_append, map_lowerChar_digits da hda]
  rw [show (' ' :: 't' :: 'o' :: ' ' :: ((d0 :: db') ++ (" minutes").data)).map lowerChar =
      ' ' :: 't' :: 'o' :: ' ' :: ((d0 :: db') ++ (" minutes").data) from by
    rw [List.map_cons, List.map_cons, List.map_cons, List.map_cons,
      List.map_append, map_lowerChar_digits _ hdb,
      show ((" minutes").data).map lowerChar = (" minutes").data from by decide,
      show lowerChar ' ' = ' ' from by decide,
      show lowerChar 't' = 't' from by decide,
      show lowerChar 'o' = 'o' from by decide]]
  dsimp only
  rw [searchRange_append_digits hourAlts da _ hda htail1 hcontH]
  rw [searchRange_cons_nondigit hourAlts ' ' _ (by decide),
    searchRange_cons_nondigit hourAlts 't' _ (by decide),
    searchRange_cons_nondigit hourAlts 'o' _ (by decide),
    searchRange_cons_nondigit hourAlts ' ' _ (by decide)]
  rw [searchRange_append_digits hourAlts (d0 :: db') _ hdb
    (by intro c hc; rw [List.head?_cons, Option.some_inj] at hc; subst hc
        exact ⟨by decide, by decide⟩)
    (by decide)]
  rw [show searchRange hourAlts ((" minutes").data) = none from by decide]
  dsimp only
  rw [searchRange_head_some minuteAlts _ _ hsucc]
  dsimp only
  rw [decMidTimes_scale0_60]

/-- `ParseNaturalDuration` on `"{A}-{B} minutes"` (helper for C7). -/
theorem parse_range_dash_aux (da db : List Char) (hnea : da ≠ []) (hneb : db ≠ [])
    (hda : ∀ c ∈ da, isDigitCh c = true) (hdb : ∀ c ∈ db, isDigitCh c = true) :
    parse_duration_to_seconds ⟨da ++ ('-' :: (db ++ (" minutes").data))⟩ =
      some ((digitsVal da + digitsVal db) * 30) := by
  obtain ⟨d0, db', rfl⟩ : ∃ d0 db', db = d0 :: db' := by
    cases db with
    | nil => cases hneb rfl
    | cons d0 db' => exact ⟨d0, db', rfl⟩
  have hd0 : isDigitCh d0 = true := hdb d0 (by simp)
  have htail2 : ∀ c, ('-' :: ((d0 :: db') ++ (" minutes").data)).head? = some c →
      isDigitCh c = false ∧ c ≠ '.' := by
    intro c hc
    rw [List.head?_cons, Option.some_inj] at hc
    subst hc
    exact ⟨by decide, by decide⟩
  have hskip_db : skipSpaces ((d0 :: db') ++ (" minutes").data) =
      (d0 :: db') ++ (" minutes").data := by
    refine skipSpaces_of_head _ ?_
    intro c hc
    rw [List.cons_append, List.head?_cons, Option.some_inj] at hc
    subst hc
    exact digit_not_space hd0
  have hmatchdb : matchNum ((d0 :: db') ++ (" minutes").data) =
      some (⟨digitsVal (d0 :: db'), 0⟩, (" minutes").data) := by
    refine matchNum_digits _ _ (by simp) hdb ?_
    intro c hc
    rw [List.head?_cons, Option.some_inj] at hc
    subst hc
    exact ⟨by decide, by decide⟩
  have hskip0 : skipSpaces ('-' :: ((d0 :: db') ++ (" minutes").data)) =
      '-' :: ((d0 :: db') ++ (" minutes").data) := by
    refine skipSpaces_of_head _ ?_
    intro c hc
    rw [List.head?_cons, Option.some_inj] at hc
    subst hc
    decide
  have hcontH : tryRange hourAlts
      ('0' :: ('-' :: ((d0 :: db') ++ (" minutes").data))) = none := by
    rw [show ('0' :: ('-' :: ((d0 :: db') ++ (" minutes").data))) =
      ['0'] ++ ('-' :: ((d0 :: db') ++ (" minutes").data)) from rfl]
    rw [tryRange_digits hourAlts ['0'] _ (by simp) (by decide) htail2]
    rw [hskip0, matchToDash_dash]
    dsimp only
    rw [hskip_db, hmatchdb]
    dsimp only
    rw [show skipSpaces ((" minutes").data) = ("minutes").data from by decide]
    rw [if_neg (by decide)]
  have hsucc : tryRange minuteAlts
      (da ++ ('-' :: ((d0 :: db') ++ (" minutes").data))) =
      some (⟨digitsVal da, 0⟩, ⟨digitsVal (d0 :: db'), 0⟩) := by
    rw [tryRange_digits minuteAlts da _ hnea hda htail2]
    rw [hskip0, matchToDash_dash]
    dsimp only
    rw [hskip_db, hmatchdb]
    dsimp only
    rw [show skipSpaces ((" minutes").data) = ("minutes").data from by decide]
    rw [if_pos (by decide)]
  unfold parse_duration_to_seconds
  rw [if_neg (by simp [String.ext_iff, hnea])]
  rw [show (String.mk (da ++ ('-' :: ((d0 :: db') ++ (" minutes").data)))).data =
    da ++ ('-' :: ((d0 :: db') ++ (" minutes").data)) from rfl]
  rw [List.map_append, map_lowerChar_digits da hda]
  rw [show (('-' :: ((d0 :: db') ++ (" minutes").data))).map lowerChar =
      '-' :: ((d0 :: db') ++ (" minutes").data) from by
    rw [List.map_cons, List.map_append, map_lowerChar_digits _ hdb,
      show ((" minutes").data).map lowerChar = (" minutes").data from by decide,
      show lowerChar '-' = '-' from by decide]]
  dsimp only
  rw [searchRange_append_digits hourAlts da _ hda htail2 hcontH]
  rw [searchRange_cons_nondigit hourAlts '-' _ (by decide)]
  rw [searchRange_append_digits hourAlts (d0 :: db') _ hdb
    (by intro c hc; rw [List.head?_cons, Option.some_inj] at hc; subst hc
        exact ⟨by decide, by decide⟩)
    (by decide)]
  rw [show searchRange hourAlts ((" minutes").data) = none from by decide]
  dsimp only
  rw [searchRange_head_some minuteAlts _ _ hsucc]
  dsimp only
  rw [decMidTimes_scale0_60]

/-- C7: `ParseNaturalDuration("{N} hours")` returns `N*3600` for every
natural `N`; for the ranges `"{A} to {B} minutes"` and `"{A}-{B} minutes"`
it computes the midpoint of the bounds before the unit multiplier and
returns `(A+B)*30`, which equals the claim's `round((A+B)/2 * 60)` on
naturals; `"8 to 10 minutes"` gives 540 seconds. -/
theorem parse_duration_c7 :
    (∀ ds : List Char, ds ≠ [] → (∀ c ∈ ds, isDigitCh c = true) →
      parse_duration_to_seconds ⟨ds ++ (" hours").data⟩ =
        some (digitsVal ds * 3600)) ∧
    (∀ da db : List Char, da ≠ [] → db ≠ [] →
      (∀ c ∈ da, isDigitCh c = true) → (∀ c ∈ db, isDigitCh c = true) →
      parse_duration_to_seconds
          ⟨da ++ (' ' :: 't' :: 'o' :: ' ' :: (db ++ (" minutes").data))⟩ =
        some ((digitsVal da + digitsVal db) * 30) ∧
      parse_duration_to_seconds ⟨da ++ ('-' :: (db ++ (" minutes").data))⟩ =
        some ((digitsVal da + digitsVal db) * 30)) ∧
    (∀ a b : Nat, (((a + b) * 30 : Nat) : ℤ) = round (((a : ℚ) + (b : ℚ)) / 2 * 60)) ∧
    parse_duration_to_seconds "8 to 10 minutes" = some 540 := by
  refine ⟨parse_hours_aux, ?_, ?_, by decide⟩
  · intro da db hnea hneb hda hdb
    exact ⟨parse_range_to_aux da db hnea hneb hda hdb,
      parse_range_dash_aux da db hnea hneb hda hdb⟩
  · intro a b
    have h : ((a : ℚ) + (b : ℚ)) / 2 * 60 = (((a + b) * 30 : Nat) : ℚ) := by
      push_cast
      ring
    rw [h, round_natCast]

/-- C7 witness: `"2 hours"` and `"8 to 10"`/`"30-45"` minute ranges at
concrete numbers. -/
theorem parse_duration_c7_witness :
    parse_duration_to_seconds "2 hours" = some 7200 ∧
    parse_duration_to_seconds "30-45 minutes" = some 2250 := by
  constructor
  · have h := parse_duration_c7.1 ['2'] (by simp) (by decide)
    exact h.trans (by decide)
  · have h := (parse_duration_c7.2.1 ['3', '0'] ['4', '5'] (by simp) (by simp)
      (by decide) (by decide)).2
    exact h.trans (by decide)

/-- The first digit run of a digit block followed by a non-digit is the
block itself (helper for C8). -/
theorem firstDigitRun_append (da tail : List Char) (hne : da ≠ [])
    (hda : ∀ c ∈ da, isDigitCh c = true)
    (htail : ∀ c, tail.head? = some c → isDigitCh c = false) :
    firstDigitRun (da ++ tail) = some da := by
  cases da with
  | nil => cases hne rfl
  | cons d da' =>
      have hd : isDigitCh d = true := hda d (by simp)
      simp only [List.cons_append, firstDigitRun, hd, if_true, List.append_eq]
      rw [show (d :: (da' ++ tail)) = (d :: da') ++ tail from rfl]
      rw [takeWhile_append_block _ (d :: da') tail hda htail]

/-- C8: `ParseServings` is invariant under one level of list and object
wrapping — `[{"value": "4-6"}]`, `{"value": "4-6"}` and `"4-6"` all parse
to 4; for a range string of digits the first number wins; a list yields the
first element whose recursive result is truthy; an object with a truthy
`value` field yields that field's result; inputs with no digits (or of
unhandled type) yield `None`. -/
theorem parse_servings_c8 :
    (parse_servings
        (.arrv (.cons (.objv (.somev (.strv "4-6")) .nonev false) .nil)) = some 4 ∧
     parse_servings (.objv (.somev (.strv "4-6")) .nonev false) = some 4 ∧
     parse_servings (.strv "4-6") = some 4) ∧
    (∀ da db : List Char, da ≠ [] → (∀ c ∈ da, isDigitCh c = true) →
      (∀ c, db.head? = some c → isDigitCh c = false) →
      parse_servings (.strv ⟨da ++ db⟩) = some ((digitsVal da : ℤ))) ∧
    (∀ (v : YieldVal) (vs : YieldList) (n : ℤ), parse_servings v = some n →
      n ≠ 0 → parse_servings (.arrv (.cons v vs)) = some n) ∧
    (∀ v : YieldVal, v.truthy = true →
      parse_servings (.objv (.somev v) .nonev false) = parse_servings v) ∧
    parse_servings (.strv "servings please") = none ∧
    parse_servings .otherv = none := by
  refine ⟨⟨by decide, by decide, by decide⟩, ?_, ?_, ?_, by decide, rfl⟩
  · intro da db hne hda hdb
    have hs : (String.mk (da ++ db)) ≠ "" := by
      simp [String.ext_iff]
      cases da with
      | nil => cases hne rfl
      | cons d da' => simp
    simp only [parse_servings, if_neg hs]
    rw [firstDigitRun_append da db hne hda hdb]
  · intro v vs n h hn
    simp only [parse_servings, parseServingsList, h, if_pos hn]
  · intro v ht
    simp only [parse_servings, ht, if_true]

/-- C8 witness: the range clause at `"7-9"`, the list clause at `["5"]`,
and the object clause at `{"value": 3}`. -/
theorem parse_servings_c8_witness :
    parse_servings (.strv "7-9") = some 7 ∧
    parse_servings (.arrv (.cons (.strv "5") .nil)) = some 5 ∧
    parse_servings (.objv (.somev (.intv 3)) .nonev false) = parse_servings (.intv 3) := by
  refine ⟨?_, ?_, ?_⟩
  · have h := parse_servings_c8.2.1 ['7'] ['-', '9'] (by simp) (by decide) (by
      intro c hc
      rw [List.head?_cons, Option.some_inj] at hc
      subst hc
      decide)
    exact h.trans (by decide)
  · exact parse_servings_c8.2.2.1 (.strv "5") .nil 5 (by decide) (by decide)
  · exact parse_servings_c8.2.2.2.1 (.intv 3) (by decide)

/-- A digit character is inside `[\d\s/.-]` (helper for C9). -/
theorem digit_is_class {c : Char} (h : isDigitCh c = true) :
    isClassCh c = true := by
  simp [isClassCh, h]

/-- A character outside `[\d\s/.-]` is not a digit (helper for C9). -/
theorem class_false_not_digit {c : Char} (h : isClassCh c = false) :
    isDigitCh c = false := by
  cases hd : isDigitCh c
  · rfl
  · rw [digit_is_class hd] at h
    cases h

/-- A character outside `[\d\s/.-]` is not whitespace (helper for C9). -/
theorem class_false_not_space {c : Char} (h : isClassCh c = false) :
    isSpaceCh c = false := by
  cases hs : isSpaceCh c
  · rfl
  · rw [show isClassCh c = true from by simp [isClassCh, hs]] at h
    cases h

/-- `takeWhile` runs through a block that satisfies the predicate
(helper for C9). -/
theorem takeWhile_append_all (p : Char → Bool) (l1 l2 : List Char)
    (h : ∀ c ∈ l1, p c = true) :
    (l1 ++ l2).takeWhile p = l1 ++ l2.takeWhile p := by
  induction l1 with
  | nil => rfl
  | cons c t ih =>
      simp only [List.cons_append, List.takeWhile, h c (by simp), if_true,
        List.append_eq]
      rw [ih (fun x hx => h x (by simp [hx]))]

/-- `dropWhile` is the identity when the head fails the predicate
(helper for C9). -/
theorem dropWhile_head_false (p : Char → Bool) (cs : List Char)
    (h : ∀ c, cs.head? = some c → p c = false) : cs.dropWhile p = cs := by
  cases cs with
  | nil => rfl
  | cons c t => simp [List.dropWhile, h c rfl]

/-- `str.strip` is the identity when neither end is whitespace
(helper for C9). -/
theorem stripChars_eq_self (cs : List Char)
    (h1 : ∀ c, cs.head? = some c → isSpaceCh c = false)
    (h2 : ∀ c, cs.reverse.head? = some c → isSpaceCh c = false) :
    stripChars cs = cs := by
  unfold stripChars
  rw [dropWhile_head_false _ cs h1, dropWhile_head_false _ cs.reverse h2,
    List.reverse_reverse]

/-- Without a dot there is no decimal match (helper for C9). -/
theorem searchDecimal_no_dot (cs : List Char) (h : '.' ∉ cs) :
    searchDecimal cs = none := by
  induction cs with
  | nil => rfl
  | cons c rest ih =>
      have hrest : '.' ∉ rest := fun hx => h (by simp [hx])
      unfold searchDecimal
      dsimp only
      split
      next rest2 heq =>
          exfalso
          have hmem : '.' ∈ (c :: rest).drop
              ((c :: rest).takeWhile (isDigitCh ·)).length := by
            rw [heq]; simp
          exact h (List.mem_of_mem_drop hmem)
      next => exact ih hrest

/-- Inputs whose head lies outside the quantity class `[\d\s/.-]` match
none of the three patterns (helper for C9). -/
theorem parse_ing_noclass (cs : List Char) (c : Char) (hc : cs.head? = some c)
    (ha : isClassCh c = false) (hstrip : stripChars cs = cs) :
    parse_ingredient_string ⟨cs⟩ = ("", ⟨cs⟩) := by
  obtain ⟨t, rfl⟩ : ∃ t, cs = c :: t := by
    cases cs with
    | nil => cases hc
    | cons a t =>
        rw [List.head?_cons, Option.some_inj] at hc
        subst hc
        exact ⟨t, rfl⟩
  have hparen : tryParen (c :: t) = none := by
    unfold tryParen
    rw [show (c :: t).takeWhile (isDigitCh ·) = [] from by
      simp [List.takeWhile, class_false_not_digit ha]]
    rfl
  have hunit : tryUnitPattern (c :: t) = none := by
    unfold tryUnitPattern
    rw [show (c :: t).takeWhile (isClassCh ·) = [] from by
      simp [List.takeWhile, ha]]
    rfl
  have hnum : tryNumFallback (c :: t) = none := by
    unfold tryNumFallback
    rw [show (c :: t).takeWhile (isClassCh ·) = [] from by
      simp [List.takeWhile, ha]]
    rfl
  unfold parse_ingredient_string
  rw [if_neg (by simp)]
  dsimp only
  rw [hstrip, hparen]
  dsimp only
  rw [hunit]
  dsimp only
  rw [hnum]

/-- `take` past an initial block (helper for C9). -/
theorem take_append_add (l1 l2 : List Char) (k : Nat) :
    (l1 ++ l2).take (l1.length + k) = l1 ++ l2.take k := by
  rw [List.take_append_eq_append_take]
  simp

/-- The capture consumed by the unit alternation determines the group-1
prefix (helper for C9). -/
theorem firstSome_take (cs : List Char) (K RL : Nat) (L : List (List Char))
    (m : Nat) (g : List Char)
    (h : firstSome L (fun r =>
        match starTail r.length r with
        | some (n, g2) => some (RL - r.length + n, g2)
        | none => none) = some (m, g)) :
    firstSome L (fun r =>
        match starTail r.length r with
        | some (n, g2) => some (cs.take (K + (RL - r.length) + n), g2)
        | none => none) = some (cs.take (K + m), g) := by
  induction L with
  | nil => cases h
  | cons r L ih =>
      cases hst : starTail r.length r with
      | none =>
          simp only [firstSome, hst] at h ⊢
          exact ih h
      | some p =>
          obtain ⟨n, g2⟩ := p
          simp only [firstSome, hst] at h ⊢
          rw [Option.some_inj, Prod.mk.injEq] at h ⊢
          obtain ⟨hm, hg⟩ := h
          refine ⟨?_, hg⟩
          rw [← hm, Nat.add_assoc]

/-- The main unit pattern on a digit run, one space and a tail whose head
is outside the class: the split point is dictated by the alternation
machinery (helper for C9). -/
theorem tryUnitPattern_digits (ds R g : List Char) (m : Nat)
    (hds : ∀ c ∈ ds, isDigitCh c = true)
    (hRtake : R.takeWhile (isClassCh ·) = [])
    (hfs : firstSome (unitCandidates R) (fun r =>
        match starTail r.length r with
        | some (n, g2) => some (R.length - r.length + n, g2)
        | none => none) = some (m, g)) :
    tryUnitPattern (ds ++ ' ' :: R) = some (ds ++ ' ' :: R.take m, g) := by
  have hsplit : ds ++ ' ' :: R = (ds ++ [' ']) ++ R := by simp
  have hclassall : ∀ c ∈ ds ++ [' '], isClassCh c = true := by
    intro c hc
    rcases List.mem_append.mp hc with hm2 | hm2
    · exact digit_is_class (hds c hm2)
    · rw [List.mem_singleton] at hm2
      subst hm2
      decide
  have hk : (ds ++ ' ' :: R).takeWhile (isClassCh ·) = ds ++ [' '] := by
    rw [hsplit, takeWhile_append_all _ _ _ hclassall, hRtake, List.append_nil]
  unfold tryUnitPattern
  rw [hk]
  rw [if_neg (by simp [List.isEmpty_iff])]
  have hrest : (ds ++ ' ' :: R).drop (ds ++ [' ']).length = R := by
    rw [hsplit]
    exact List.drop_left _ _
  rw [hrest]
  dsimp only
  have hmain := firstSome_take (ds ++ ' ' :: R) (ds ++ [' ']).length R.length
    (unitCandidates R) m g hfs
  rw [show (ds ++ ' ' :: R).take ((ds ++ [' ']).length + m) =
      ds ++ ' ' :: R.take m from by
    rw [hsplit, take_append_add]
    simp] at hmain
  exact hmain

/-- `parse_ingredient_string` on a leading digit run followed by a space
and a tail on which the unit pattern captures `Q`: the quantity is the
digits plus the captured unit characters, the name is group 2
(helper for C9). -/
theorem parse_ing_unitsplit (ds R Q g : List Char)
    (hne : ds ≠ []) (hds : ∀ c ∈ ds, isDigitCh c = true)
    (hR0 : isClassCh (R.headD 'x') = false)
    (hRp : R.headD 'x' ≠ '(')
    (hfs : firstSome (unitCandidates R) (fun r =>
        match starTail r.length r with
        | some (n, g2) => some (R.length - r.length + n, g2)
        | none => none) = some (Q.length, g))
    (hQ : R.take Q.length = Q)
    (hQ0 : Q ≠ [])
    (hRlast : isSpaceCh (R.reverse.headD 'x') = false)
    (hQlast : isSpaceCh (Q.reverse.headD 'x') = false)
    (hQdot : '.' ∉ Q)
    (hg : stripChars g = g) :
    parse_ingredient_string ⟨ds ++ ' ' :: R⟩ = (⟨ds ++ ' ' :: Q⟩, ⟨g⟩) := by
  obtain ⟨d0, ds', rfl⟩ : ∃ d0 ds', ds = d0 :: ds' := by
    cases ds with
    | nil => cases hne rfl
    | cons d0 ds' => exact ⟨d0, ds', rfl⟩
  have hd0 : isDigitCh d0 = true := hds d0 (by simp)
  obtain ⟨r0, R', rfl⟩ : ∃ r0 R', R = r0 :: R' := by
    cases R with
    | nil =>
        rw [show unitCandidates [] = [] from by decide] at hfs
        cases hfs
    | cons r0 R' => exact ⟨r0, R', rfl⟩
  rw [List.headD_cons] at hR0 hRp
  obtain ⟨a, A, hA⟩ : ∃ a A, (r0 :: R').reverse = a :: A := by
    cases h : (r0 :: R').reverse with
    | nil => exact absurd (List.reverse_eq_nil_iff.mp h) (by simp)
    | cons a A => exact ⟨a, A, rfl⟩
  rw [hA, List.headD_cons] at hRlast
  obtain ⟨b, B, hB⟩ : ∃ b B, Q.reverse = b :: B := by
    cases h : Q.reverse with
    | nil => exact absurd (List.reverse_eq_nil_iff.mp h) hQ0
    | cons b B => exact ⟨b, B, rfl⟩
  rw [hB, List.headD_cons] at hQlast
  have hstrip : stripChars ((d0 :: ds') ++ ' ' :: r0 :: R') =
      (d0 :: ds') ++ ' ' :: r0 :: R' := by
    refine stripChars_eq_self _ ?_ ?_
    · intro c hc
      rw [List.cons_append, List.head?_cons, Option.some_inj] at hc
      subst hc
      exact digit_not_space hd0
    · intro c hc
      rw [List.reverse_append, show (' ' :: r0 :: R').reverse =
          (r0 :: R').reverse ++ [' '] from by simp, hA, List.cons_append,
        List.cons_append, List.head?_cons, Option.some_inj] at hc
      subst hc
      exact hRlast
  have hparen : tryParen ((d0 :: ds') ++ ' ' :: r0 :: R') = none := by
    unfold tryParen
    rw [takeWhile_append_block _ (d0 :: ds') _ hds (by
      intro c hc
      rw [List.head?_cons, Option.some_inj] at hc
      subst hc
      decide)]
    rw [if_neg (by simp [List.isEmpty_iff])]
    rw [List.drop_left]
    dsimp only
    rw [show (' ' :: r0 :: R').takeWhile (isSpaceCh ·) = [' '] from by
      simp [List.takeWhile, class_false_not_space hR0,
        show isSpaceCh ' ' = true from by decide]]
    dsimp only [List.length_cons, List.length_nil, List.drop]
    split
    next r3 heq =>
        rw [List.cons.injEq] at heq
        exact absurd heq.1 hRp
    next => rfl
  have hunit : tryUnitPattern ((d0 :: ds') ++ ' ' :: r0 :: R') =
      some ((d0 :: ds') ++ ' ' :: Q, g) := by
    have h := tryUnitPattern_digits (d0 :: ds') (r0 :: R') g Q.length hds
      (by simp [List.takeWhile, hR0]) hfs
    rw [hQ] at h
    exact h
  have hnodotds : '.' ∉ (d0 :: ds') := by
    intro hm2
    exact absurd (hds _ hm2) (by decide)
  have hconv : convert_decimal_to_fraction ((d0 :: ds') ++ ' ' :: Q) =
      (d0 :: ds') ++ ' ' :: Q := by
    unfold convert_decimal_to_fraction
    rw [if_neg (by simp [List.isEmpty_iff])]
    rw [searchDecimal_no_dot _ (by
      intro hmem
      rcases List.mem_append.mp hmem with hm2 | hm2
      · exact hnodotds hm2
      · rcases List.mem_cons.mp hm2 with h3 | h3
        · exact absurd h3 (by decide)
        · exact hQdot h3)]
  have hstripq : stripChars ((d0 :: ds') ++ ' ' :: Q) =
      (d0 :: ds') ++ ' ' :: Q := by
    refine stripChars_eq_self _ ?_ ?_
    · intro c hc
      rw [List.cons_append, List.head?_cons, Option.some_inj] at hc
      subst hc
      exact digit_not_space hd0
    · intro c hc
      rw [List.reverse_append, show (' ' :: Q).reverse =
          Q.reverse ++ [' '] from by simp, hB, List.cons_append,
        List.cons_append, List.head?_cons, Option.some_inj] at hc
      subst hc
      exact hQlast
  unfold parse_ingredient_string
  rw [if_neg (by simp)]
  dsimp only
  rw [hstrip, hparen]
  dsimp only
  rw [hunit]
  dsimp only
  rw [hstripq, hconv, hg]

/-- Band membership in exact hundredths is equivalent to the rational
tolerance bounds on the matched decimal value (helper for C9). -/
theorem inBand_val_iff (lo hi : Nat) (d : DecNum) :
    inBand lo hi d = true ↔
      ((lo : ℚ) / 100 ≤ d.val ∧ d.val ≤ (hi : ℚ) / 100) := by
  have h10 : (0 : ℚ) < (10 : ℚ) ^ d.scale := by positivity
  unfold inBand DecNum.val
  rw [Bool.and_eq_true, decide_eq_true_eq, decide_eq_true_eq,
    div_le_div_iff₀ (by norm_num) h10, div_le_div_iff₀ h10 (by norm_num)]
  constructor
  · rintro ⟨h1, h2⟩
    exact ⟨by exact_mod_cast h1, by exact_mod_cast h2⟩
  · rintro ⟨h1, h2⟩
    exact ⟨by exact_mod_cast h1, by exact_mod_cast h2⟩

/-- The tolerance bands are pairwise disjoint, so `find?` returns exactly
the band that contains the decimal (helper for C9). -/
theorem find_band (d : DecNum) (lo hi : Nat) (f : List Char)
    (hmem : (lo, hi, f) ∈ DECIMAL_BANDS) (hd : inBand lo hi d = true) :
    DECIMAL_BANDS.find? (fun b => inBand b.1 b.2.1 d) = some (lo, hi, f) := by
  simp only [DECIMAL_BANDS, List.mem_cons, List.not_mem_nil, or_false] at hmem
  rcases hmem with h|h|h|h|h|h|h|h|h
  · simp only [Prod.mk.injEq] at h
    obtain ⟨rfl, rfl, rfl⟩ := h
    have hX : 1 ≤ 10 ^ d.scale := Nat.one_le_pow _ _ (by norm_num)
    have hb := hd
    simp only [inBand, Bool.and_eq_true, decide_eq_true_eq] at hb
    simp only [DECIMAL_BANDS, List.find?, hd]
  · simp only [Prod.mk.injEq] at h
    obtain ⟨rfl, rfl, rfl⟩ := h
    have hX : 1 ≤ 10 ^ d.scale := Nat.one_le_pow _ _ (by norm_num)
    have hb := hd
    simp only [inBand, Bool.and_eq_true, decide_eq_true_eq] at hb
    have hf1 : inBand 32 34 d = false := by
      cases h' : inBand 32 34 d
      · rfl
      · exfalso
        simp only [inBand, Bool.and_eq_true, decide_eq_true_eq] at h'
        omega
    simp only [DECIMAL_BANDS, List.find?, hd, hf1]
  · simp only [Prod.mk.injEq] at h
    obtain ⟨rfl, rfl, rfl⟩ := h
    have hX : 1 ≤ 10 ^ d.scale := Nat.one_le_pow _ _ (by norm_num)
    have hb := hd
    simp only [inBand, Bool.and_eq_true, decide_eq_true_eq] at hb
    have hf1 : inBand 32 34 d = false := by
      cases h' : inBand 32 34 d
      · rfl
      · exfalso
        simp only [inBand, Bool.and_eq_true, decide_eq_true_eq] at h'
        omega
    have hf2 : inBand 66 68 d = false := by
      cases h' : inBand 66 68 d
      · rfl
      · exfalso
        simp only [inBand, Bool.and_eq_true, decide_eq_true_eq] at h'
        omega
    simp only [DECIMAL_BANDS, List.find?, hd, hf1, hf2]
  · simp only [Prod.mk.injEq] at h
    obtain ⟨rfl, rfl, rfl⟩ := h
    have hX : 1 ≤ 10 ^ d.scale := Nat.one_le_pow _ _ (by norm_num)
    have hb := hd
    simp only [inBand, Bool.and_eq_true, decide_eq_true_eq] at hb
    have hf1 : inBand 32 34 d = false := by
      cases h' : inBand 32 34 d
      · rfl
      · exfalso
        simp only [inBand, Bool.and_eq_true, decide_eq_true_eq] at h'
        omega
    have hf2 : inBand 66 68 d = false := by
      cases h' : inBand 66 68 d
      · rfl
      · exfalso
        simp only [inBand, Bool.and_eq_true, decide_eq_true_eq] at h'
        omega
    have hf3 : inBand 24 26 d = false := by
      cases h' : inBand 24 26 d
      · rfl
      · exfalso
        simp only [inBand, Bool.and_eq_true, decide_eq_true_eq] at h'
        omega
    simp only [DECIMAL_BANDS, List.find?, hd, hf1, hf2, hf3]
  · simp only [Prod.mk.injEq] at h
    obtain ⟨rfl, rfl, rfl⟩ := h
    have hX : 1 ≤ 10 ^ d.scale := Nat.one_le_pow _ _ (by norm_num)
    have hb := hd
    simp only [inBand, Bool.and_eq_true, decide_eq_true_eq] at hb
    have hf1 : inBand 32 34 d = false := by
      cases h' : inBand 32 34 d
      · rfl
      · exfalso
        simp only [inBand, Bool.and_eq_true, decide_eq_true_eq] at h'
        omega
    have hf2 : inBand 66 68 d = false := by
      cases h' : inBand 66 68 d
      · rfl
      · exfalso
        simp only [inBand, Bool.and_eq_true, decide_eq_true_eq] at h'
        omega
    have hf3 : inBand 24 26 d = false := by
      cases h' : inBand 24 26 d
      · rfl
      · exfalso
        simp only [inBand, Bool.and_eq_true, decide_eq_true_eq] at h'
        omega
    have hf4 : inBand 74 76 d = false := by
      cases h' : inBand 74 76 d
      · rfl
      · exfalso
        simp only [inBand, Bool.and_eq_true, decide_eq_true_eq] at h'
        omega
    simp only [DECIMAL_BANDS, List.find?, hd, hf1, hf2, hf3, hf4]
  · simp only [Prod.mk.injEq] at h
    obtain ⟨rfl, rfl, rfl⟩ := h
    have hX : 1 ≤ 10 ^ d.scale := Nat.one_le_pow _ _ (by norm_num)
    have hb := hd
    simp only [inBand, Bool.and_eq_true, decide_eq_true_eq] at hb
    have hf1 : inBand 32 34 d = false := by
      cases h' : inBand 32 34 d
      · rfl
      · exfalso
        simp only [inBand, Bool.and_eq_true, decide_eq_true_eq] at h'
        omega
    have hf2 : inBand 66 68 d = false := by
      cases h' : inBand 66 68 d
      · rfl
      · exfalso
        simp only [inBand, Bool.and_eq_true, decide_eq_true_eq] at h'
        omega
    have hf3 : inBand 24 26 d = false := by
      cases h' : inBand 24 26 d
      · rfl
      · exfalso
        simp only [inBand, Bool.and_eq_true, decide_eq_true_eq] at h'
        omega
    have hf4 : inBand 74 76 d = false := by
      cases h' : inBand 74 76 d
      · rfl
      · exfalso
        simp only [inBand, Bool.and_eq_true, decide_eq_true_eq] at h'
        omega
    have hf5 : inBand 49 51 d = false := by
      cases h' : inBand 49 51 d
      · rfl
      · exfalso
        simp only [inBand, Bool.and_eq_true, decide_eq_true_eq] at h'
        omega
    simp only [DECIMAL_BANDS, List.find?, hd, hf1, hf2, hf3, hf4, hf5]
  · simp only [Prod.mk.injEq] at h
    obtain ⟨rfl, rfl, rfl⟩ := h
    have hX : 1 ≤ 10 ^ d.scale := Nat.one_le_pow _ _ (by norm_num)
    have hb := hd
    simp only [inBand, Bool.and_eq_true, decide_eq_true_eq] at hb
    have hf1 : inBand 32 34 d = false := by
      cases h' : inBand 32 34 d
      · rfl
      · exfalso
        simp only [inBand, Bool.and_eq_true, decide_eq_true_eq] at h'
        omega
    have hf2 : inBand 66 68 d = false := by
      cases h' : inBand 66 68 d
      · rfl
      · exfalso
        simp only [inBand, Bool.and_eq_true, decide_eq_true_eq] at h'
        omega
    have hf3 : inBand 24 26 d = false := by
      cases h' : inBand 24 26 d
      · rfl
      · exfalso
        simp only [inBand, Bool.and_eq_true, decide_eq_true_eq] at h'
        omega
    have hf4 : inBand 74 76 d = false := by
      cases h' : inBand 74 76 d
      · rfl
      · exfalso
        simp only [inBand, Bool.and_eq_true, decide_eq_true_eq] at h'
        omega
    have hf5 : inBand 49 51 d = false := by
      cases h' : inBand 49 51 d
      · rfl
      · exfalso
        simp only [inBand, Bool.and_eq_true, decide_eq_true_eq] at h'
        omega
    have hf6 : inBand 12 13 d = false := by
      cases h' : inBand 12 13 d
      · rfl
      · exfalso
        simp only [inBand, Bool.and_eq_true, decide_eq_true_eq] at h'
        omega
    simp only [DECIMAL_BANDS, List.find?, hd, hf1, hf2, hf3, hf4, hf5, hf6]
  · simp only [Prod.mk.injEq] at h
    obtain ⟨rfl, rfl, rfl⟩ := h
    have hX : 1 ≤ 10 ^ d.scale := Nat.one_le_pow _ _ (by norm_num)
    have hb := hd
    simp only [inBand, Bool.and_eq_true, decide_eq_true_eq] at hb
    have hf1 : inBand 32 34 d = false := by
      cases h' : inBand 32 34 d
      · rfl
      · exfalso
        simp only [inBand, Bool.and_eq_true, decide_eq_true_eq] at h'
        omega
    have hf2 : inBand 66 68 d = false := by
      cases h' : inBand 66 68 d
      · rfl
      · exfalso
        simp only [inBand, Bool.and_eq_true, decide_eq_true_eq] at h'
        omega
    have hf3 : inBand 24 26 d = false := by
      cases h' : inBand 24 26 d
      · rfl
      · exfalso
        simp only [inBand, Bool.and_eq_true, decide_eq_true_eq] at h'
        omega
    have hf4 : inBand 74 76 d = false := by
      cases h' : inBand 74 76 d
      · rfl
      · exfalso
        simp only [inBand, Bool.and_eq_true, decide_eq_true_eq] at h'
        omega
    have hf5 : inBand 49 51 d = false := by
      cases h' : inBand 49 51 d
      · rfl
      · exfalso
        simp only [inBand, Bool.and_eq_true, decide_eq_true_eq] at h'
        omega
    have hf6 : inBand 12 13 d = false := by
      cases h' : inBand 12 13 d
      · rfl
      · exfalso
        simp only [inBand, Bool.and_eq_true, decide_eq_true_eq] at h'
        omega
    have hf7 : inBand 37 38 d = false := by
      cases h' : inBand 37 38 d
      · rfl
      · exfalso
        simp only [inBand, Bool.and_eq_true, decide_eq_true_eq] at h'
        omega
    simp only [DECIMAL_BANDS, List.find?, hd, hf1, hf2, hf3, hf4, hf5, hf6, hf7]
  · simp only [Prod.mk.injEq] at h
    obtain ⟨rfl, rfl, rfl⟩ := h
    have hX : 1 ≤ 10 ^ d.scale := Nat.one_le_pow _ _ (by norm_num)
    have hb := hd
    simp only [inBand, Bool.and_eq_true, decide_eq_true_eq] at hb
    have hf1 : inBand 32 34 d = false := by
      cases h' : inBand 32 34 d
      · rfl
      · exfalso
        simp only [inBand, Bool.and_eq_true, decide_eq_true_eq] at h'
        omega
    have hf2 : inBand 66 68 d = false := by
      cases h' : inBand 66 68 d
      · rfl
      · exfalso
        simp only [inBand, Bool.and_eq_true, decide_eq_true_eq] at h'
        omega
    have hf3 : inBand 24 26 d = false := by
      cases h' : inBand 24 26 d
      · rfl
      · exfalso
        simp only [inBand, Bool.and_eq_true, decide_eq_true_eq] at h'
        omega
    have hf4 : inBand 74 76 d = false := by
      cases h' : inBand 74 76 d
      · rfl
      · exfalso
        simp only [inBand, Bool.and_eq_true, decide_eq_true_eq] at h'
        omega
    have hf5 : inBand 49 51 d = false := by
      cases h' : inBand 49 51 d
      · rfl
      · exfalso
        simp only [inBand, Bool.and_eq_true, decide_eq_true_eq] at h'
        omega
    have hf6 : inBand 12 13 d = false := by
      cases h' : inBand 12 13 d
      · rfl
      · exfalso
        simp only [inBand, Bool.and_eq_true, decide_eq_true_eq] at h'
        omega
    have hf7 : inBand 37 38 d = false := by
      cases h' : inBand 37 38 d
      · rfl
      · exfalso
        simp only [inBand, Bool.and_eq_true, decide_eq_true_eq] at h'
        omega
    have hf8 : inBand 62 63 d = false := by
      cases h' : inBand 62 63 d
      · rfl
      · exfalso
        simp only [inBand, Bool.and_eq_true, decide_eq_true_eq] at h'
        omega
    simp only [DECIMAL_BANDS, List.find?, hd, hf1, hf2, hf3, hf4, hf5, hf6, hf7, hf8]

/-- When the first decimal found in a quantity lies in one of the nine
tolerance bands, `convert_decimal_to_fraction` replaces every occurrence
of the matched decimal text by that band's fraction (helper for C9). -/
theorem convert_band (q mt : List Char) (d : DecNum) (lo hi : Nat)
    (f : List Char) (hq : q ≠ []) (hs : searchDecimal q = some (mt, d))
    (hmem : (lo, hi, f) ∈ DECIMAL_BANDS)
    (hval : (lo : ℚ) / 100 ≤ d.val ∧ d.val ≤ (hi : ℚ) / 100) :
    convert_decimal_to_fraction q = replaceAllF mt f q.length q := by
  have hband : inBand lo hi d = true := (inBand_val_iff lo hi d).mpr hval
  unfold convert_decimal_to_fraction
  rw [if_neg (by simpa [List.isEmpty_iff] using hq)]
  rw [hs]
  dsimp only
  rw [find_band d lo hi f hmem hband]

/-- C9 counterexample: `"- salt"` has no leading number, yet the numeric
fallback pattern `^([\d\s/.-]+)\s+([a-zA-Z].+)$` matches its leading dash
(the class also contains `/`, `.` and `-`), so the split is
`("-", "salt")` and not the whole string as the name with an empty
quantity, as the claim requires for inputs with no leading number. -/
theorem parse_ingredient_c9_counterexample :
    parse_ingredient_string "- salt" = ("-", "salt") ∧
    parse_ingredient_string "- salt" ≠ ("", "- salt") := by
  constructor
  · decide
  · decide

/-- C9 (amended): `SplitIngredientLine("2 cups flour") = ("2 cups",
"flour")` and `SplitIngredientLine("salt") = ("", "salt")`; for every
leading number (any nonempty digit string) followed by any of the 67 known
unit tokens and a name, the split occurs right after the unit; every
(stripped) input whose first character is outside the quantity class
`[\d\s/.-]` — not a digit, whitespace, slash, dot or dash — is returned
whole as the name with an empty quantity (inputs such as `"- salt"` whose
head is a non-digit class character instead split at the fallback
pattern); and for every quantity string whose first decimal lies within
one of the nine tolerance bands, the decimal text is replaced by that
band's fraction, as the nine representative quantities show end to end. -/
theorem parse_ingredient_c9 :
    parse_ingredient_string "2 cups flour" = ("2 cups", "flour") ∧
    parse_ingredient_string "salt" = ("", "salt") ∧
    (∀ (cs : List Char) (c : Char), cs.head? = some c → isClassCh c = false →
      stripChars cs = cs → parse_ingredient_string ⟨cs⟩ = ("", ⟨cs⟩)) ∧
    (∀ ds : List Char, ds ≠ [] → (∀ c ∈ ds, isDigitCh c = true) →
      ∀ ub ∈ UNITS,
        parse_ingredient_string ⟨ds ++ ' ' :: (ub.1 ++ (" flour").data)⟩ =
          (⟨ds ++ ' ' :: ub.1⟩, ⟨("flour").data⟩)) ∧
    (∀ (q mt f : List Char) (d : DecNum) (lo hi : Nat),
      q ≠ [] → searchDecimal q = some (mt, d) → (lo, hi, f) ∈ DECIMAL_BANDS →
      (lo : ℚ) / 100 ≤ d.val → d.val ≤ (hi : ℚ) / 100 →
      convert_decimal_to_fraction q = replaceAllF mt f q.length q) ∧
    (parse_ingredient_string "0.33 cups milk" = ("1/3 cups", "milk") ∧
     parse_ingredient_string "0.67 cups milk" = ("2/3 cups", "milk") ∧
     parse_ingredient_string "0.25 cups milk" = ("1/4 cups", "milk") ∧
     parse_ingredient_string "0.75 cups milk" = ("3/4 cups", "milk") ∧
     parse_ingredient_string "0.5 cups milk" = ("1/2 cups", "milk") ∧
     parse_ingredient_string "0.125 cups milk" = ("1/8 cups", "milk") ∧
     parse_ingredient_string "0.375 cups milk" = ("3/8 cups", "milk") ∧
     parse_ingredient_string "0.625 cups milk" = ("5/8 cups", "milk") ∧
     parse_ingredient_string "0.875 cups milk" = ("7/8 cups", "milk")) := by
  refine ⟨by decide, by decide, parse_ing_noclass, ?_, ?_,
    by decide, by decide, by decide, by decide, by decide, by decide,
    by decide, by decide, by decide⟩
  · intro ds hne hds ub hub
    fin_cases hub <;>
      exact parse_ing_unitsplit ds _ _ _ hne hds (by decide) (by decide)
        (by decide) (by decide) (by decide) (by decide) (by decide)
        (by decide) (by decide)
  · intro q mt f d lo hi hq hs hmem h1 h2
    exact convert_band q mt d lo hi f hq hs hmem ⟨h1, h2⟩

/-- C9 witness: the non-class-head clause at `"pepper"`, the unit-split
clause at `N = 42` with the unit `tbsp`, and the band clause at
`"0.5 cups"`. -/
theorem parse_ingredient_c9_witness :
    parse_ingredient_string "pepper" = ("", "pepper") ∧
    parse_ingredient_string "42 tbsp flour" = ("42 tbsp", "flour") ∧
    convert_decimal_to_fraction (("0.5 cups").data) = ("1/2 cups").data := by
  refine ⟨?_, ?_, ?_⟩
  · exact parse_ingredient_c9.2.2.1 (("pepper").data) 'p' (by decide)
      (by decide) (by decide)
  · have h := parse_ingredient_c9.2.2.2.1 ['4', '2'] (by simp) (by decide)
      (("tbsp").data, false) (by decide)
    exact h.trans (by decide)
  · have h := parse_ingredient_c9.2.2.2.2.1 (("0.5 cups").data)
      (("0.5").data) (("1/2").data) ⟨5, 1⟩ 49 51 (by decide) (by decide)
      (by decide) (by norm_num [DecNum.val]) (by norm_num [DecNum.val])
    exact h.trans (by decide)

end MealTogether
